import Mathlib

/-!
# Verification of the StratLab analytics core (`backend/compute.py`)

This file gives a shallow embedding of the data-cleaning and numeric
core of the StratLab pipeline and proves/refutes the specification
claims about it.

Modelling conventions:

* Python/NumPy double values are modelled by `PyF`: either a finite
  real number or one of the IEEE special values `inf`, `-inf`, `nan`.
  Rounding of finite arithmetic is not modelled (finite operations are
  exact real operations), but all special-value propagation rules
  (`inf - inf = nan`, `x / 0`, comparisons with `nan` being false,
  Python's `max` keeping the first argument when the comparison with
  `nan` fails, ...) are modelled faithfully.
* `pandas` tables are modelled as lists of tuples; `groupby` iterates
  groups in sorted key order, `pivot` sorts its index and columns and
  raises on duplicate (index, column) pairs, `dropna` removes `nan`
  (but not `inf`) — all as in pandas.
* The random standard-normal sample drawn inside `_var_es` enters the
  model only through the resulting quantile magnitude
  `z = abs(np.quantile(sample, 1 - level))`, which is passed as an
  explicit non-negative real parameter (one per symbol group, since the
  code draws a fresh sample per call).
* `sklearn.linear_model.LinearRegression.fit` validates its input and
  raises on non-finite values; on finite data it solves least squares,
  returning the slope `Sxy / Sxx` and, for a degenerate (zero-variance)
  regressor, the minimum-norm solution `0`.  Exceptions are modelled
  with `Except`.
-/

/-- A Python `float` value: finite real, `inf`, `-inf`, or `nan`. -/
inductive PyF where
  | finite (x : ℝ)
  | inf
  | neginf
  | nan

namespace PyF

/-- `True` iff the value is `nan` (used for `dropna` / `isna`). -/
def isNan : PyF → Bool
  | nan => true
  | _ => false

/-- `True` iff the value is a finite float (NumPy `isfinite`). -/
def isFinite : PyF → Bool
  | finite _ => true
  | _ => false

end PyF

open PyF (finite inf neginf nan)

open Classical in
/-- IEEE negation of a double. -/
noncomputable def pyNeg : PyF → PyF
  | finite x => finite (-x)
  | inf => neginf
  | neginf => inf
  | nan => nan

open Classical in
/-- IEEE addition of doubles (`inf + -inf = nan`, `nan` absorbs). -/
noncomputable def pyAdd : PyF → PyF → PyF
  | nan, _ => nan
  | _, nan => nan
  | finite a, finite b => finite (a + b)
  | finite _, inf => inf
  | finite _, neginf => neginf
  | inf, finite _ => inf
  | neginf, finite _ => neginf
  | inf, inf => inf
  | inf, neginf => nan
  | neginf, inf => nan
  | neginf, neginf => neginf

/-- IEEE subtraction of doubles. -/
noncomputable def pySub (a b : PyF) : PyF := pyAdd a (pyNeg b)

open Classical in
/-- IEEE multiplication of doubles (`0 * inf = nan`, `nan` absorbs). -/
noncomputable def pyMul : PyF → PyF → PyF
  | nan, _ => nan
  | _, nan => nan
  | finite a, finite b => finite (a * b)
  | finite a, inf => if a = 0 then nan else if 0 < a then inf else neginf
  | finite a, neginf => if a = 0 then nan else if 0 < a then neginf else inf
  | inf, finite b => if b = 0 then nan else if 0 < b then inf else neginf
  | neginf, finite b => if b = 0 then nan else if 0 < b then neginf else inf
  | inf, inf => inf
  | inf, neginf => neginf
  | neginf, inf => neginf
  | neginf, neginf => inf

open Classical in
/-- IEEE division of doubles (`x / 0` is a signed infinity or `nan`,
`inf / inf = nan`, finite over infinite is `0`, `nan` absorbs). -/
noncomputable def pyDiv : PyF → PyF → PyF
  | nan, _ => nan
  | _, nan => nan
  | finite a, finite b =>
      if b = 0 then (if a = 0 then nan else if 0 < a then inf else neginf)
      else finite (a / b)
  | finite _, inf => finite 0
  | finite _, neginf => finite 0
  | inf, finite b => if 0 ≤ b then inf else neginf
  | neginf, finite b => if 0 ≤ b then neginf else inf
  | inf, inf => nan
  | inf, neginf => nan
  | neginf, inf => nan
  | neginf, neginf => nan

open Classical in
/-- IEEE strict comparison `a > b`; any comparison with `nan` is false. -/
def pyGtP : PyF → PyF → Prop
  | nan, _ => False
  | _, nan => False
  | finite a, finite b => b < a
  | inf, finite _ => True
  | inf, neginf => True
  | inf, inf => False
  | neginf, _ => False
  | finite _, inf => False
  | finite _, neginf => True

open Classical in
/-- IEEE non-strict comparison `a ≤ b`; any comparison with `nan` is false. -/
def pyLeP : PyF → PyF → Prop
  | nan, _ => False
  | _, nan => False
  | finite a, finite b => a ≤ b
  | inf, inf => True
  | inf, _ => False
  | neginf, _ => True
  | finite _, inf => True
  | finite _, neginf => False

open Classical in
/-- Python's builtin `max(a, b)`: returns `b` if `b > a`, else `a`
(so `max(0.0, nan)` is `0.0`). -/
noncomputable def pyMax (a b : PyF) : PyF := if pyGtP b a then b else a

open Classical in
/-- NumPy elementwise square root: `nan` for negative or `nan` input. -/
noncomputable def pySqrt : PyF → PyF
  | finite x => if x < 0 then nan else finite (Real.sqrt x)
  | inf => inf
  | neginf => nan
  | nan => nan

/-- NumPy elementwise exponential. -/
noncomputable def pyExp : PyF → PyF
  | finite x => finite (Real.exp x)
  | inf => inf
  | neginf => finite 0
  | nan => nan

/-- Sum of a NumPy array (IEEE addition folded over the list). -/
noncomputable def pySum (l : List PyF) : PyF := l.foldr pyAdd (finite 0)

/-- NumPy `arr.mean()`: sum divided by length (`nan` for an empty array). -/
noncomputable def pyMean (l : List PyF) : PyF :=
  pyDiv (pySum l) (finite (l.length : ℝ))

/-- NumPy `arr.var(ddof=1)`: sum of squared deviations from the mean
divided by `n - 1` (which is `0/0 = nan` for a single element). -/
noncomputable def pyVarB (l : List PyF) : PyF :=
  pyDiv (pySum (l.map (fun x => pyMul (pySub x (pyMean l)) (pySub x (pyMean l)))))
    (finite ((l.length : ℝ) - 1))

/-- NumPy `arr.std(ddof=1)`: square root of the Bessel-corrected variance. -/
noncomputable def pyStd (l : List PyF) : PyF := pySqrt (pyVarB l)

/-- Characters stripped by Python's `float(str)` around the literal. -/
def pyIsSpace (c : Char) : Bool :=
  c = ' ' || c = '\t' || c = '\n' || c = '\r' || c = '\x0b' || c = '\x0c'

/-- Strip leading and trailing whitespace. -/
def pyStrip (l : List Char) : List Char :=
  ((l.dropWhile pyIsSpace).reverse.dropWhile pyIsSpace).reverse

/-- CPython's underscore rule for numeric literals: every underscore
must sit directly between two digits. -/
def uOk : List Char → Bool
  | '_' :: _ => false
  | a :: '_' :: b :: rest => a.isDigit && b.isDigit && uOk (b :: rest)
  | _ :: '_' :: [] => false
  | _ :: rest => uOk rest
  | [] => true

/-- Value of a list of decimal digit characters. -/
def digitsVal (l : List Char) : ℕ :=
  l.foldl (fun acc c => 10 * acc + (c.toNat - '0'.toNat)) 0

/-- Parse an unsigned decimal literal (no sign, no underscores):
`digits [. digits] [(e|E) [sign] digits]`, needing at least one mantissa
digit and nothing left over.  Returns the numeric components
`(integer part, fraction digits value, fraction length, exponent)`. -/
def decLitParts (cs : List Char) : Option (ℕ × ℕ × ℕ × ℤ) :=
  let ip := cs.takeWhile Char.isDigit
  let r1 := cs.dropWhile Char.isDigit
  let fp := if r1.head? = some '.' then r1.tail.takeWhile Char.isDigit else []
  let r2 := if r1.head? = some '.' then r1.tail.dropWhile Char.isDigit else r1
  if ip.isEmpty && fp.isEmpty then none
  else
    match r2 with
    | [] => some (digitsVal ip, digitsVal fp, fp.length, 0)
    | e :: r3 =>
      if e = 'e' || e = 'E' then
        let se : Bool × List Char := match r3 with
          | '+' :: t => (false, t)
          | '-' :: t => (true, t)
          | t => (false, t)
        if se.2.isEmpty || !(se.2.all Char.isDigit) then none
        else some (digitsVal ip, digitsVal fp, fp.length,
          if se.1 then -(digitsVal se.2 : ℤ) else (digitsVal se.2 : ℤ))
      else none

/-- The exact rational value of a decimal literal from its components. -/
def litVal (t : ℕ × ℕ × ℕ × ℤ) : ℚ :=
  ((t.1 : ℚ) + (t.2.1 : ℚ) / (10 : ℚ) ^ t.2.2.1) * (10 : ℚ) ^ t.2.2.2

/-- The exact value of a successfully parsed float literal: a rational
magnitude or one of the special words. -/
inductive PyLit where
  | q (v : ℚ)
  | pinf
  | pneginf
  | pnan
deriving DecidableEq

/-- The literal Python's `float(str)` accepts, or `none` when it raises
`ValueError`: strips whitespace, takes an optional sign, accepts the
words `inf`/`infinity`/`nan` case-insensitively, and otherwise parses a
decimal literal with CPython's digit-group underscores. -/
def pyStrLit (s : String) : Option PyLit :=
  let l := pyStrip s.toList
  let sl : Bool × List Char := match l with
    | '+' :: t => (false, t)
    | '-' :: t => (true, t)
    | t => (false, t)
  let low := sl.2.map Char.toLower
  if low = "inf".toList || low = "infinity".toList then
    some (if sl.1 then PyLit.pneginf else PyLit.pinf)
  else if low = "nan".toList then some PyLit.pnan
  else if !(uOk l) then none
  else match decLitParts (sl.2.filter (fun c => !(c = '_'))) with
    | some t => some (PyLit.q (if sl.1 then -(litVal t) else litVal t))
    | none => none

/-- The double a parsed literal denotes. -/
noncomputable def pyLitToF : PyLit → PyF
  | PyLit.q v => finite (v : ℝ)
  | PyLit.pinf => inf
  | PyLit.pneginf => neginf
  | PyLit.pnan => nan

/-- `float(str)` as a partial map into doubles. -/
noncomputable def pyFloatOfString (s : String) : Option PyF :=
  (pyStrLit s).map pyLitToF

/-- A scalar value reaching `parse_to_float`: Python `None`, an `int`,
a `float`, or a `str`. -/
inductive PyVal where
  | none
  | int (n : ℤ)
  | float (f : PyF)
  | str (s : String)

/-- Python's `str.split(sep)` on a single separator character
(fields kept in order, empty fields included). -/
def splitOnChar (sep : Char) : List Char → List (List Char)
  | [] => [[]]
  | c :: rest =>
    match splitOnChar sep rest with
    | [] => [[]]
    | h :: t => if c = sep then [] :: h :: t else (c :: h) :: t

/-- The calendar-date heuristic inside `parse_to_float`: exactly 10
characters, exactly two `'-'` characters, and splitting on `'-'` gives
three fields of lengths 4, 2, 2. -/
def dateShaped (s : String) : Bool :=
  (s.length == 10) && (s.toList.count '-' == 2) &&
    (match splitOnChar '-' s.toList with
     | [y, m, d] => (y.length == 4) && (m.length == 2) && (d.length == 2)
     | _ => false)

/-- CPython's `float(int)` overflow bound: the conversion rounds to the
nearest double and raises `OverflowError` when the rounded value is
infinite, i.e. when `|n| ≥ 2^1024 - 2^970` (the halfway point above the
largest finite double `2^1024 - 2^971` rounds up, half-even, to
`2^1024`). -/
def intOverflow (n : ℤ) : Bool := decide (2 ^ 1024 - 2 ^ 970 ≤ n.natAbs)

/-- `parse_to_float` from `backend/compute.py`: `None` maps to null;
numeric values are returned as floats via `float(value)` — a call that
sits outside any `try` block (and the later `except` clauses catch only
`ValueError`/`TypeError`), so an `int` beyond the double range raises
`OverflowError` (the `.error` outcome); strings are first screened by
the date-shape heuristic and then parsed with `float(value)`,
converting `ValueError` into null. -/
noncomputable def parse_to_float : PyVal → Except String (Option PyF)
  | PyVal.none => Except.ok Option.none
  | PyVal.int n =>
    if intOverflow n then Except.error "int too large to convert to float"
    else Except.ok (some (finite (n : ℝ)))
  | PyVal.float f => Except.ok (some f)
  | PyVal.str s => Except.ok (if dateShaped s then Option.none else pyFloatOfString s)

/-- `parse_to_float` on a value that is already a float: the elementwise
maps of `compute_risk` and `factor_regression` apply `parse_to_float` to
float cells, where the `isinstance` branch returns `float(value)` and
cannot raise — this is the value those maps see. -/
noncomputable def parse_to_float_f (r : PyF) : Option PyF :=
  match parse_to_float (PyVal.float r) with
  | Except.ok v => v
  | Except.error _ => Option.none

/-- A raw row after file parsing and type coercion: the three logical
columns, with a possibly-`nan` price (`to_numeric(errors="coerce")`). -/
structure RawRow where
  date : ℕ
  symbol : String
  px : PyF

/-- A row of the cleaned table: `Date`, `Symbol`, `Px`, `Ret`. -/
structure CleanRow where
  date : ℕ
  symbol : String
  px : PyF
  ret : PyF

/-- Insert into a list in front of the first element it is `le` to. -/
def insertLe {α : Type} (le : α → α → Bool) (x : α) : List α → List α
  | [] => [x]
  | y :: ys => if le x y then x :: y :: ys else y :: insertLe le x ys

/-- Insertion sort by a boolean total preorder. -/
def sortByLe {α : Type} (le : α → α → Bool) (l : List α) : List α :=
  l.foldr (insertLe le) []

/-- Code-point lexicographic order on strings (how pandas sorts
symbol labels). -/
def charListLt : List Char → List Char → Bool
  | [], [] => false
  | [], _ :: _ => true
  | _ :: _, [] => false
  | a :: as, b :: bs =>
    if a.toNat < b.toNat then true
    else if b.toNat < a.toNat then false
    else charListLt as bs

/-- Strict string order. -/
def strLt (a b : String) : Bool := charListLt a.data b.data

/-- Lexicographic `(Symbol, Date)` order used by `sort_values`. -/
def rowLe (a b : RawRow) : Bool :=
  strLt a.symbol b.symbol || (a.symbol == b.symbol && decide (a.date ≤ b.date))

/-- One step of `pct_change`: `px[t]/px[t-1] - 1` against the previous
row when it belongs to the same symbol group, `nan` otherwise. -/
noncomputable def pctRet (prev : Option (String × PyF)) (r : RawRow) : PyF :=
  match prev with
  | some pq => if pq.1 == r.symbol then pySub (pyDiv r.px pq.2) (finite 1) else nan
  | none => nan

/-- `pandas` `pct_change` down a sorted frame, restarting at each new
symbol (`groupby("Symbol")["Px"].pct_change()` is `px[t]/px[t-1] - 1`,
`nan` on the first row of each group). -/
noncomputable def pctChange : Option (String × PyF) → List RawRow → List CleanRow
  | _, [] => []
  | prev, r :: rest =>
    ⟨r.date, r.symbol, r.px, pctRet prev r⟩ :: pctChange (some (r.symbol, r.px)) rest

/-- `_read_and_clean` after file parsing: drop rows with unresolved
price, sort by `(Symbol, Date)`, compute per-symbol returns, and drop
rows whose return is `nan` (`dropna(subset=["Ret"])`). -/
noncomputable def read_and_clean (rows : List RawRow) : List CleanRow :=
  let kept := rows.filter (fun r => !r.px.isNan)
  (pctChange none (sortByLe rowLe kept)).filter (fun r => !r.ret.isNan)

/-- String order on symbols (as a boolean `≤`). -/
def strLe (a b : String) : Bool := strLt a b || a == b

/-- Distinct symbols of the cleaned table in sorted order, as both
`groupby("Symbol")` and `pivot` produce them. -/
def sortedSymbols (df : List CleanRow) : List String :=
  sortByLe strLe (df.map (fun r => r.symbol)).dedup

open Classical in
/-- `_var_es`: parametric Gaussian VaR/ES of a return sample.  `z` is
the quantile magnitude `abs(np.quantile(np.random.normal(size=100_000),
1 - level))` obtained from the random draw of this invocation. -/
noncomputable def var_es (level : ℝ) (z : ℝ) (arr : List PyF) : PyF × PyF :=
  if arr.length = 0 then (finite 0, finite 0)
  else
    let mu := pyMean arr
    let sigma := if 1 < arr.length then pyStd arr else finite 0
    if sigma = finite 0 then
      (pyMax (finite 0) (pyNeg mu), pyMax (finite 0) (pyNeg mu))
    else
      let varq := pySub mu (pyMul (finite z) sigma)
      let es := pySub mu (pyDiv (pyMul sigma (pyExp (finite (-z ^ 2 / 2))))
        (finite (Real.sqrt (2 * Real.pi) * (1 - level))))
      (pyMax (finite 0) (pyNeg varq), pyMax (finite 0) (pyNeg es))

/-- The defensive pass of `compute_risk` on one symbol's return series:
`grp["Ret"].map(parse_to_float).dropna()` — coerce every value, then
drop nulls and `nan`s (pandas `dropna` removes both). -/
noncomputable def riskArr (rets : List PyF) : List PyF :=
  ((rets.map (fun r => parse_to_float_f r)).filterMap id).filter
    (fun r => !r.isNan)

/-- The `Ret` series of one symbol, in cleaned-table order. -/
noncomputable def retsOf (df : List CleanRow) (s : String) : List PyF :=
  (df.filter (fun r => r.symbol == s)).map (fun r => r.ret)

/-- `compute_risk`: one `(Symbol, VaR, ES)` record per symbol, groups
iterated in sorted symbol order; `z` gives the random quantile magnitude
drawn while processing each group. -/
noncomputable def compute_risk (level : ℝ) (z : String → ℝ) (df : List CleanRow) :
    List (String × PyF × PyF) :=
  (sortedSymbols df).map (fun s => (s, var_es level (z s) (riskArr (retsOf df s))))

/-- Distinct dates of the cleaned table in sorted order (`pivot` index). -/
def sortedDates (df : List CleanRow) : List ℕ :=
  sortByLe (fun a b => decide (a ≤ b)) (df.map (fun r => r.date)).dedup

/-- A cell of the pivoted wide table: the return of symbol `s` at date
`d`, or `nan` where the symbol has no observation. -/
noncomputable def cellRaw (df : List CleanRow) (s : String) (d : ℕ) : PyF :=
  match df.find? (fun r => r.symbol == s && r.date == d) with
  | some r => r.ret
  | none => nan

/-- The wide-table cell after the defensive re-coercion: `parse_to_float`
on every cell, with `pd.to_numeric(errors="coerce")` mapping the `None`s
back to `nan`. -/
noncomputable def cell (df : List CleanRow) (s : String) (d : ℕ) : PyF :=
  match parse_to_float_f (cellRaw df s d) with
  | some v => v
  | none => nan

/-- Dates surviving `dropna(how="any")` on the wide table: those where
every symbol has a non-`nan` cell (strict full alignment). -/
noncomputable def alignedDates (df : List CleanRow) : List ℕ :=
  (sortedDates df).filter
    (fun d => (sortedSymbols df).all (fun s => !(cell df s d).isNan))

/-- `pivot` raises on duplicate `(Date, Symbol)` pairs. -/
def hasDupKey (df : List CleanRow) : Bool :=
  !decide (df.map (fun r => (r.date, r.symbol))).Nodup

/-- Mean of a list of reals (`0` for the empty list). -/
noncomputable def meanR (l : List ℝ) : ℝ := l.sum / l.length

/-- Centered sum of squares of the regressor. -/
noncomputable def sxx (x : List ℝ) : ℝ := (x.map (fun v => (v - meanR x) ^ 2)).sum

/-- Centered cross-product of regressor and response. -/
noncomputable def sxy (x y : List ℝ) : ℝ :=
  ((List.zip x y).map (fun p => (p.1 - meanR x) * (p.2 - meanR y))).sum

open Classical in
/-- The slope `LinearRegression` (least squares with intercept) fits on
finite data: `Sxy / Sxx`, and the minimum-norm solution `0` when the
centered regressor is identically zero. -/
noncomputable def olsSlope (x y : List ℝ) : ℝ :=
  if sxx x = 0 then 0 else sxy x y / sxx x

/-- Least-squares residuals `y - (intercept + slope * x)` with
`intercept = mean y - slope * mean x`. -/
noncomputable def residuals (x y : List ℝ) : List ℝ :=
  (List.zip x y).map (fun p => p.2 - (meanR y + olsSlope x y * (p.1 - meanR x)))

/-- `residuals.var(axis=0, ddof=1)` for one asset (NumPy semantics:
`nan` when only one aligned row remains). -/
noncomputable def residVar (x y : List ℝ) : PyF :=
  pyVarB ((residuals x y).map finite)

/-- The finite payload of a `PyF` (only used on values checked finite). -/
noncomputable def pyToReal : PyF → ℝ
  | finite x => x
  | _ => 0

open Classical in
/-- `factor_regression`: pivot to wide (raising on duplicate keys),
re-coerce every cell, drop non-aligned dates, fall back to the first
column when the market symbol is absent, return empty frames when fewer
than two columns or no aligned rows remain, and otherwise fit least
squares — which raises when the aligned data contains non-finite
values (`sklearn` input validation).  Returns `(betas, residual
variances)`. -/
noncomputable def factor_regression (df : List CleanRow) (market : String) :
    Except String (List (String × PyF) × List (String × PyF)) :=
  if hasDupKey df then .error "Index contains duplicate entries, cannot reshape"
  else
    let cols := sortedSymbols df
    let market1 := if market ∈ cols then market else cols.headD market
    if market1 ∉ cols ∨ cols.length < 2 then .ok ([], [])
    else
      let ds := alignedDates df
      if ds.length = 0 then .ok ([], [])
      else if !(ds.all (fun d => cols.all (fun s => (cell df s d).isFinite))) then
        .error "Input contains infinity or a value too large for dtype float64"
      else
        let assets := cols.filter (fun s => !(s == market1))
        let x := ds.map (fun d => pyToReal (cell df market1 d))
        .ok (assets.map (fun a => (a, finite (olsSlope x (ds.map (fun d => pyToReal (cell df a d)))))),
          assets.map (fun a => (a, residVar x (ds.map (fun d => pyToReal (cell df a d))))))

/-- The terminal artifact built by `run_factor_model`: summary records
`(Symbol, Beta, VaR, ES, ResidualVar)`, the two parallel chart series,
and the optional error diagnostic. -/
structure AnalysisResult where
  summary : List (String × PyF × PyF × PyF × PyF)
  varChartX : List String
  varChartY : List PyF
  betaChartX : List String
  betaChartY : List PyF
  error : Option String

/-- The error-shape result: `error` set, every other field empty. -/
def errorResult (e : String) : AnalysisResult :=
  ⟨[], [], [], [], [], some e⟩

/-- `betas.merge(risk, on="Symbol").merge(resid, on="Symbol")
.sort_values("Symbol")`: inner join in left order, then sort. -/
noncomputable def buildSummary (betas : List (String × PyF))
    (risk : List (String × PyF × PyF)) (resid : List (String × PyF)) :
    List (String × PyF × PyF × PyF × PyF) :=
  sortByLe (fun a b => strLe a.1 b.1)
    (betas.filterMap (fun p =>
      match risk.find? (fun q => q.1 == p.1), resid.find? (fun q => q.1 == p.1) with
      | some q, some t => some (p.1, p.2, q.2.1, q.2.2, t.2)
      | _, _ => Option.none))

/-- `run_factor_model`: the full pipeline under the orchestrator's
`try`/`except`.  The file read is abstracted as an `Except` (a source
that cannot be read or lacks the required columns yields `.error`);
every stage failure is converted into `errorResult`.  When the cleaned
table is empty, `compute_risk` builds its frame from an empty record
list, which carries no `Symbol` column, and the merge raises
`KeyError` — caught like every other stage failure. -/
noncomputable def run_factor_model (z : String → ℝ)
    (load : Except String (List RawRow)) : AnalysisResult :=
  match load with
  | .error e => errorResult e
  | .ok rows =>
    let df := read_and_clean rows
    let risk := compute_risk (99 / 100) z df
    match factor_regression df "SPY" with
    | .error e => errorResult e
    | .ok br =>
      if risk.isEmpty then errorResult "KeyError: Symbol"
      else
        let summary := buildSummary br.1 risk br.2
        { summary := summary
          varChartX := summary.map (fun r => r.1)
          varChartY := summary.map (fun r => r.2.2.1)
          betaChartX := summary.map (fun r => r.1)
          betaChartY := summary.map (fun r => r.2.1)
          error := Option.none }

/-- Python's `str.strip()` on a column name. -/
def strTrim (s : String) : String := ⟨pyStrip s.toList⟩

/-- The column-resolution step of `_read_and_clean` (after the file is
read): every column is renamed to its trimmed name, then the exact
names `"Symbol"`, `"Px"`, `"Date"` are accessed — resolution succeeds
iff all three are present after trimming. -/
def columnsResolve (cols : List String) : Bool :=
  let t := cols.map strTrim
  t.contains "Date" && t.contains "Symbol" && t.contains "Px"

/-- The kind of tabular source `_read_and_clean` reads: columnar binary
(`read_parquet`, the `.parquet` suffix) or delimited text (`read_csv`,
every other suffix). -/
inductive SourceKind where
  | parquet
  | csv

/-- The file-read step of `_read_and_clean`: `read_parquet` imposes no
header requirement of its own, while `read_csv(p, parse_dates=["Date"])`
validates `parse_dates` against the raw, untrimmed header and raises
`ValueError` when the exact name `"Date"` is absent — before the
rename/trim step ever runs. -/
def readHeader (k : SourceKind) (cols : List String) : Except String (List String) :=
  match k with
  | SourceKind.parquet => Except.ok cols
  | SourceKind.csv =>
    if "Date" ∈ cols then Except.ok cols
    else Except.error "Missing column provided to parse_dates: Date"

/-- Column resolution across the whole of `_read_and_clean`: the read
step (with its `parse_dates` requirement on delimited text), then every
column renamed to its trimmed name and the exact names `"Date"`,
`"Symbol"`, `"Px"` accessed. -/
def loaderResolves (k : SourceKind) (cols : List String) : Bool :=
  match readHeader k cols with
  | Except.ok cs => columnsResolve cs
  | Except.error _ => false

/-- Bessel-corrected sample variance of a list of reals (real-division
convention: `0` for lists of length one). -/
noncomputable def bvarR (l : List ℝ) : ℝ :=
  (l.map (fun x => (x - meanR l) ^ 2)).sum / ((l.length : ℝ) - 1)

/-- Every floating value of an `AnalysisResult` — the `Beta`, `VaR`,
`ES` and `ResidualVar` of each summary record and both chart series —
is a finite double (neither `nan` nor an infinity). -/
def resultValuesFinite (res : AnalysisResult) : Prop :=
  (∀ rec ∈ res.summary, rec.2.1.isFinite = true ∧ rec.2.2.1.isFinite = true ∧
    rec.2.2.2.1.isFinite = true ∧ rec.2.2.2.2.isFinite = true) ∧
  (∀ y ∈ res.varChartY, y.isFinite = true) ∧
  (∀ y ∈ res.betaChartY, y.isFinite = true)

/-! ## Helper lemmas -/

theorem parse_float_id (f : PyF) :
    parse_to_float (PyVal.float f) = Except.ok (some f) := rfl

theorem parse_float_f_id (f : PyF) : parse_to_float_f f = some f := rfl

theorem riskArr_eq_filter (rets : List PyF) :
    riskArr rets = rets.filter (fun r => !r.isNan) := by
  induction rets with
  | nil => rfl
  | cons r rest ih =>
    simp only [riskArr, List.map_cons, parse_float_f_id, List.filterMap_cons] at *
    by_cases h : r.isNan <;> simp [h, List.filter_cons, ih] at *

theorem mem_insertLe {α : Type} (le : α → α → Bool) (x y : α) (l : List α) :
    y ∈ insertLe le x l ↔ y = x ∨ y ∈ l := by
  induction l with
  | nil => simp [insertLe]
  | cons a as ih =>
    simp only [insertLe]
    by_cases h : le x a <;> simp [h, ih] <;> tauto

theorem mem_sortByLe {α : Type} (le : α → α → Bool) (y : α) (l : List α) :
    y ∈ sortByLe le l ↔ y ∈ l := by
  induction l with
  | nil => simp [sortByLe]
  | cons a as ih =>
    simp only [sortByLe, List.foldr_cons] at *
    rw [mem_insertLe]
    simp [ih]

/-! ## C5 -/

/-- C5 counterexample: `parse_to_float` on the integer `10 ^ 400`
raises `OverflowError` instead of returning a float or null — the
`float(value)` call on the numeric branch sits outside any `try` block
and the surrounding `except` clauses catch only
`ValueError`/`TypeError`. -/
theorem c5_counterexample :
    parse_to_float (PyVal.int (10 ^ 400)) =
      Except.error "int too large to convert to float" := by
  have habs : ((10 : ℤ) ^ 400).natAbs = 10 ^ 400 := by
    rw [Int.natAbs_pow]
    rw [show Int.natAbs 10 = 10 from rfl]
  have h : intOverflow (10 ^ 400) = true := by
    simp only [intOverflow, habs, decide_eq_true_eq]
    norm_num
  simp [parse_to_float, h]

/-- C5 amended: `parse_to_float` never raises on null, float and
string inputs — it returns a float or null there — and every floating
input is returned unchanged; integer input, however, is returned as a
float only below the double-overflow bound, and raises `OverflowError`
at or beyond it. -/
theorem c5_amended :
    (parse_to_float PyVal.none = Except.ok Option.none) ∧
    (∀ f : PyF, parse_to_float (PyVal.float f) = Except.ok (some f)) ∧
    (∀ s : String, parse_to_float (PyVal.str s) = Except.ok Option.none ∨
      ∃ f, parse_to_float (PyVal.str s) = Except.ok (some f)) ∧
    (∀ n : ℤ, if intOverflow n
      then parse_to_float (PyVal.int n) = Except.error "int too large to convert to float"
      else parse_to_float (PyVal.int n) = Except.ok (some (finite (n : ℝ)))) := by
  refine ⟨rfl, fun f => rfl, fun s => ?_, fun n => ?_⟩
  · by_cases hd : dateShaped s = true
    · exact Or.inl (by simp [parse_to_float, hd])
    · have hd2 : dateShaped s = false := by
        cases hX : dateShaped s
        · rfl
        · exact absurd hX hd
      cases hp : pyFloatOfString s with
      | none => exact Or.inl (by simp [parse_to_float, hd2, hp])
      | some f => exact Or.inr ⟨f, by simp [parse_to_float, hd2, hp]⟩
  · cases h : intOverflow n with
    | false =>
      rw [if_neg Bool.false_ne_true]
      simp only [parse_to_float, h, Bool.false_eq_true, if_false]
    | true =>
      rw [if_pos rfl]
      simp only [parse_to_float, h, if_true]

/-! ## C10 -/

/-- C10: `parse_to_float` returns every Python float — `nan` and the
infinities included — unchanged, so the defensive re-coercion pass of
`compute_risk` (`map(parse_to_float).dropna()`) is exactly a `nan`
filter: it cannot remove infinite return values, and the same holds for
the re-coerced wide-table cells of `factor_regression`. -/
theorem c10_recoercion_keeps_infinities :
    (∀ f : PyF, parse_to_float (PyVal.float f) = Except.ok (some f)) ∧
    (∀ rets : List PyF, riskArr rets = rets.filter (fun r => !r.isNan)) ∧
    (∀ (rets : List PyF) (r : PyF), r ∈ rets → r.isNan = false → r ∈ riskArr rets) ∧
    (∀ (df : List CleanRow) (s : String) (d : ℕ), cell df s d = cellRaw df s d) := by
  refine ⟨parse_float_id, riskArr_eq_filter, fun rets r hr hn => ?_, fun df s d => rfl⟩
  rw [riskArr_eq_filter]
  simp [List.mem_filter, hr, hn]

/-- Witness for C10 at a concrete series containing an infinity. -/
theorem c10_witness :
    PyF.inf ∈ ([PyF.inf, PyF.nan, finite 1] : List PyF) ∧ PyF.inf.isNan = false ∧
      PyF.inf ∈ riskArr [PyF.inf, PyF.nan, finite 1] :=
  ⟨by simp, rfl, c10_recoercion_keeps_infinities.2.2.1 _ _ (by simp) rfl⟩

/-! ## C3 -/

/-- C3 counterexample: `"1234_12_12"` is a 10-character string whose two
separator characters (underscores) split it into digit-only fields of
lengths 4, 2, 2, yet `parse_to_float` returns the float `12341212.0`,
not null — Python's `float` accepts digit-group underscores and the
date heuristic only looks for `'-'`. -/
theorem c3_counterexample :
    ("1234_12_12".length = 10 ∧ "1234_12_12".toList.count '_' = 2 ∧
      splitOnChar '_' "1234_12_12".toList = ["1234".toList, "12".toList, "12".toList]) ∧
    parse_to_float (PyVal.str "1234_12_12") = Except.ok (some (finite 12341212)) := by
  refine ⟨⟨by decide, by decide, by decide⟩, ?_⟩
  have hd : dateShaped "1234_12_12" = false := by decide
  have hp : decLitParts ("1234_12_12".toList.filter (fun c => !(c = '_'))) =
      some (12341212, 0, 0, 0) := by decide
  have hl : pyStrLit "1234_12_12" = some (PyLit.q (litVal (12341212, 0, 0, 0))) := rfl
  have hv : litVal (12341212, 0, 0, 0) = 12341212 := by norm_num [litVal]
  rw [hv] at hl
  simp [parse_to_float, hd, pyFloatOfString, hl, pyLitToF]

/-- C3 amended: the separator the date heuristic recognises is
exactly the hyphen: every 10-character string containing exactly two
`'-'` characters that split it into fields of lengths 4, 2 and 2 is
coerced to null by `parse_to_float`, whatever the fields contain; in
particular `"2025-01-01"` coerces to null. -/
theorem c3_amended (s : String) (h1 : s.length = 10)
    (h2 : s.toList.count '-' = 2)
    (h3 : ∃ y m d, splitOnChar '-' s.toList = [y, m, d] ∧
      y.length = 4 ∧ m.length = 2 ∧ d.length = 2) :
    parse_to_float (PyVal.str s) = Except.ok Option.none := by
  obtain ⟨y, m, d, hs, hy, hm, hd⟩ := h3
  have h2d : List.count '-' s.data = 2 := h2
  have hsd : splitOnChar '-' s.data = [y, m, d] := hs
  have hds : dateShaped s = true := by
    simp [dateShaped, h1, h2d, hsd, hy, hm, hd]
  simp [parse_to_float, hds]

/-- Witness for C3 at `"2025-01-01"`. -/
theorem c3_witness :
    ("2025-01-01".length = 10 ∧ "2025-01-01".toList.count '-' = 2 ∧
      splitOnChar '-' "2025-01-01".toList = ["2025".toList, "01".toList, "01".toList]) ∧
    parse_to_float (PyVal.str "2025-01-01") = Except.ok Option.none :=
  ⟨⟨by decide, by decide, by decide⟩,
    c3_amended _ (by decide) (by decide)
      ⟨"2025".toList, "01".toList, "01".toList, by decide, by decide, by decide, by decide⟩⟩

/-! ## C8 -/

/-- C8 counterexample: the three required names carried in lower case
(no surrounding whitespace) do not resolve — column matching in
`_read_and_clean` is case-sensitive; and on a delimited-text source it
is not whitespace-insensitive either: a padded `" Date "` header makes
`read_csv(parse_dates=["Date"])` raise before any trimming, while the
same padded header on a columnar-binary source resolves. -/
theorem c8_counterexample :
    columnsResolve ["date", "symbol", "px"] = false ∧
    loaderResolves SourceKind.csv [" Date ", "Symbol", "Px"] = false ∧
    loaderResolves SourceKind.parquet [" Date ", "Symbol", "Px"] = true := by
  refine ⟨by decide, by decide, by decide⟩

/-- C8 amended: column matching is case-sensitive and only partially
whitespace-insensitive: resolution succeeds iff the trimmed names
include the exact strings `"Date"`, `"Symbol"` and `"Px"`, and — on a
delimited-text source — the raw header also carries the exact untrimmed
name `"Date"`, required by `parse_dates` before the rename/trim step. -/
theorem c8_amended (k : SourceKind) (cols : List String) :
    loaderResolves k cols = true ↔
      (("Date" ∈ cols.map strTrim ∧ "Symbol" ∈ cols.map strTrim ∧
        "Px" ∈ cols.map strTrim) ∧
       (k = SourceKind.csv → "Date" ∈ cols)) := by
  cases k with
  | parquet =>
    simp only [loaderResolves, readHeader, columnsResolve, Bool.and_eq_true,
      List.elem_iff, List.mem_map]
    constructor
    · rintro ⟨⟨h1, h2⟩, h3⟩
      exact ⟨⟨h1, h2, h3⟩, fun h => SourceKind.noConfusion h⟩
    · rintro ⟨⟨h1, h2, h3⟩, -⟩
      exact ⟨⟨h1, h2⟩, h3⟩
  | csv =>
    by_cases hc : ("Date" : String) ∈ cols
    · have hr : readHeader SourceKind.csv cols = Except.ok cols := by
        simp only [readHeader]
        rw [if_pos hc]
      simp only [loaderResolves, hr, columnsResolve, Bool.and_eq_true,
        List.elem_iff, List.mem_map]
      constructor
      · rintro ⟨⟨h1, h2⟩, h3⟩
        exact ⟨⟨h1, h2, h3⟩, fun _ => hc⟩
      · rintro ⟨⟨h1, h2, h3⟩, -⟩
        exact ⟨⟨h1, h2⟩, h3⟩
    · have hr : readHeader SourceKind.csv cols =
          Except.error "Missing column provided to parse_dates: Date" := by
        simp only [readHeader]
        rw [if_neg hc]
      simp only [loaderResolves, hr]
      constructor
      · intro h
        exact absurd h (by simp)
      · rintro ⟨-, himp⟩
        exact absurd (himp (by trivial)) hc

/-- Witness for C8: trimmed, exactly-cased names resolve on a
columnar-binary source, and on a delimited-text source whose `Date`
header itself is unpadded. -/
theorem c8_witness :
    loaderResolves SourceKind.parquet [" Date ", "Symbol", "Px "] = true ∧
    loaderResolves SourceKind.csv ["Date", " Symbol ", " Px "] = true :=
  ⟨(c8_amended SourceKind.parquet [" Date ", "Symbol", "Px "]).mpr
      ⟨⟨by decide, by decide, by decide⟩, fun h => SourceKind.noConfusion h⟩,
    (c8_amended SourceKind.csv ["Date", " Symbol ", " Px "]).mpr
      ⟨⟨by decide, by decide, by decide⟩, fun _ => by decide⟩⟩

/-! ## C1 -/

/-- C1: `run_factor_model` is total (the model's orchestrator converts
every stage failure into a value instead of propagating it): for every
source and every random draw, either the result carries no error, or
`error` is set and the summary and both chart series are present but
empty; in particular an unreadable source yields exactly the
error-shaped result. -/
theorem c1_orchestrator_error_boundary :
    (∀ (z : String → ℝ) (load : Except String (List RawRow)),
      (run_factor_model z load).error = Option.none ∨
        ∃ e, (run_factor_model z load).error = some e ∧
          (run_factor_model z load).summary = [] ∧
          (run_factor_model z load).varChartX = [] ∧
          (run_factor_model z load).varChartY = [] ∧
          (run_factor_model z load).betaChartX = [] ∧
          (run_factor_model z load).betaChartY = []) ∧
    (∀ (z : String → ℝ) (e : String),
      run_factor_model z (Except.error e) = errorResult e) := by
  constructor
  · intro z load
    cases load with
    | error e => exact Or.inr ⟨e, rfl, rfl, rfl, rfl, rfl, rfl⟩
    | ok rows =>
      rcases h : factor_regression (read_and_clean rows) "SPY" with e | br
      · refine Or.inr ⟨e, ?_, ?_, ?_, ?_, ?_, ?_⟩ <;>
          simp [run_factor_model, h, errorResult]
      · cases hre : (compute_risk (99 / 100) z (read_and_clean rows)).isEmpty with
        | true =>
          refine Or.inr ⟨"KeyError: Symbol", ?_, ?_, ?_, ?_, ?_, ?_⟩ <;>
            simp [run_factor_model, h, hre, errorResult]
        | false => exact Or.inl (by simp [run_factor_model, h, hre])
  · intro z e
    rfl

/-! ## C4 -/

/-- C4 counterexample: a symbol whose first price is `0` produces an
infinite return (`1/0 - 1 = inf`) that `dropna` does **not** remove:
the cleaned table keeps a non-finite return row. -/
theorem c4_counterexample :
    read_and_clean [⟨1, "A", finite 0⟩, ⟨2, "A", finite 1⟩] =
      [⟨2, "A", finite 1, PyF.inf⟩] ∧ PyF.inf.isFinite = false := by
  refine ⟨?_, rfl⟩
  have hr : rowLe ⟨1, "A", finite 0⟩ ⟨2, "A", finite 1⟩ = true := rfl
  norm_num [read_and_clean, sortByLe, insertLe, hr, pctChange, pctRet, pySub, pyDiv,
    pyAdd, pyNeg, PyF.isNan, List.filter]

/-- Helper for C4: with finite nonzero prices every computed return is
`nan` or finite. -/
theorem pctChange_ret_nan_or_finite :
    ∀ (l : List RawRow) (prev : Option (String × PyF)),
    (∀ r ∈ l, ∃ p : ℝ, r.px = finite p ∧ p ≠ 0) →
    (∀ pq : String × PyF, prev = some pq → ∃ p : ℝ, pq.2 = finite p ∧ p ≠ 0) →
    ∀ c ∈ pctChange prev l, c.ret = nan ∨ c.ret.isFinite = true := by
  intro l
  induction l with
  | nil =>
    intro prev h1 h2
    simp [pctChange]
  | cons r rest ih =>
    intro prev hl hprev c hc
    simp only [pctChange, List.mem_cons] at hc
    rcases hc with hc | hc
    · subst hc
      show pctRet prev r = nan ∨ _
      cases prev with
      | none => exact Or.inl rfl
      | some pq =>
        obtain ⟨p, hp, hpne⟩ := hprev pq rfl
        by_cases hsym : pq.1 == r.symbol
        · obtain ⟨q, hq, _⟩ := hl r (List.mem_cons_self r rest)
          right
          simp [pctRet, hsym, hp, hq, pyDiv, hpne, pySub, pyAdd, pyNeg, PyF.isFinite]
        · exact Or.inl (by simp [pctRet, hsym])
    · exact ih (some (r.symbol, r.px))
        (fun q hq => hl q (List.mem_cons_of_mem r hq))
        (fun pq hpq => by cases hpq; exact hl r (List.mem_cons_self r rest)) c hc

/-- C4 amended: rows whose computed return is `nan` — in particular the
first row of every symbol — are dropped, so no cleaned row carries a
`nan` return; but infinite returns are *not* dropped, and every cleaned
return is guaranteed finite only under the additional hypothesis that
all surviving prices are finite and nonzero. -/
theorem c4_amended (rows : List RawRow) :
    (∀ c ∈ read_and_clean rows, c.ret.isNan = false) ∧
    ((∀ r ∈ rows, ∃ p : ℝ, r.px = finite p ∧ p ≠ 0) →
      ∀ c ∈ read_and_clean rows, c.ret.isFinite = true) := by
  constructor
  · intro c hc
    simp only [read_and_clean, List.mem_filter] at hc
    simpa using hc.2
  · intro h c hc
    simp only [read_and_clean, List.mem_filter] at hc
    have hl : ∀ r ∈ sortByLe rowLe (rows.filter (fun r => !r.px.isNan)),
        ∃ p : ℝ, r.px = finite p ∧ p ≠ 0 := by
      intro r hr
      rw [mem_sortByLe] at hr
      exact h r (List.mem_of_mem_filter hr)
    rcases pctChange_ret_nan_or_finite _ Option.none hl
        (fun pq hpq => by cases hpq) c hc.1 with hn | hf
    · rw [hn] at hc
      simp [PyF.isNan] at hc
    · exact hf

/-- Witness for C4 on a two-row table with nonzero prices. -/
theorem c4_witness :
    (∀ r ∈ ([⟨1, "A", finite 2⟩, ⟨2, "A", finite 3⟩] : List RawRow),
      ∃ p : ℝ, r.px = finite p ∧ p ≠ 0) ∧
    (∀ c ∈ read_and_clean [⟨1, "A", finite 2⟩, ⟨2, "A", finite 3⟩],
      c.ret.isFinite = true) := by
  have h : ∀ r ∈ ([⟨1, "A", finite 2⟩, ⟨2, "A", finite 3⟩] : List RawRow),
      ∃ p : ℝ, r.px = finite p ∧ p ≠ 0 := by
    intro r hr
    simp only [List.mem_cons, List.not_mem_nil, or_false] at hr
    rcases hr with rfl | rfl
    · exact ⟨2, rfl, by norm_num⟩
    · exact ⟨3, rfl, by norm_num⟩
  exact ⟨h, (c4_amended _).2 h⟩

/-! ## Bridging lemmas for finite-valued samples -/

theorem pyMax_finite (a b : ℝ) : pyMax (finite a) (finite b) = finite (max a b) := by
  simp only [pyMax, pyGtP]
  by_cases h : a < b
  · rw [if_pos h, max_eq_right h.le]
  · rw [if_neg h, max_eq_left (not_lt.mp h)]

theorem pySum_map_finite (l : List ℝ) : pySum (l.map finite) = finite l.sum := by
  induction l with
  | nil => rfl
  | cons x xs ih =>
    simp only [List.map_cons, pySum, List.foldr_cons, List.sum_cons]
    rw [show (xs.map finite).foldr pyAdd (finite 0) = pySum (xs.map finite) from rfl, ih]
    rfl

theorem pyMean_map_finite (l : List ℝ) (h : l ≠ []) :
    pyMean (l.map finite) = finite (meanR l) := by
  have hn : (l.length : ℝ) ≠ 0 := by
    have := List.length_pos.mpr h
    exact Nat.cast_ne_zero.mpr (Nat.pos_iff_ne_zero.mp this)
  simp [pyMean, pySum_map_finite, pyDiv, hn, meanR]

theorem bvarR_nonneg (l : List ℝ) (h : 2 ≤ l.length) : 0 ≤ bvarR l := by
  apply div_nonneg
  · apply List.sum_nonneg
    intro x hx
    obtain ⟨y, _, rfl⟩ := List.mem_map.mp hx
    positivity
  · have : (2 : ℝ) ≤ (l.length : ℝ) := by exact_mod_cast h
    linarith

theorem pyVarB_map_finite (l : List ℝ) (h : 2 ≤ l.length) :
    pyVarB (l.map finite) = finite (bvarR l) := by
  have h0 : l ≠ [] := by
    rintro rfl
    simp at h
  have hn1 : ((l.length : ℝ) - 1) ≠ 0 := by
    have : (2 : ℝ) ≤ (l.length : ℝ) := by exact_mod_cast h
    intro hc
    linarith
  rw [pyVarB, pyMean_map_finite l h0]
  have hmaps : (l.map finite).map
      (fun x => pyMul (pySub x (finite (meanR l))) (pySub x (finite (meanR l)))) =
      (l.map (fun x => (x - meanR l) ^ 2)).map finite := by
    rw [List.map_map, List.map_map]
    apply List.map_congr_left
    intro x hx
    show pyMul (pySub (finite x) (finite (meanR l))) (pySub (finite x) (finite (meanR l))) =
      finite ((x - meanR l) ^ 2)
    simp only [pySub, pyNeg, pyAdd, pyMul, PyF.finite.injEq]
    ring
  rw [hmaps, pySum_map_finite]
  simp only [List.length_map]
  show pyDiv _ (finite ((l.length : ℝ) - 1)) = _
  simp [pyDiv, hn1, bvarR]

theorem pyStd_map_finite (l : List ℝ) (h : 2 ≤ l.length) :
    pyStd (l.map finite) = finite (Real.sqrt (bvarR l)) := by
  rw [pyStd, pyVarB_map_finite l h]
  simp [pySqrt, not_lt.mpr (bvarR_nonneg l h)]

/-- On a finite sample of length at least two with nonzero variance,
`_var_es` takes the generic branch and returns the two clamped Gaussian
estimates. -/
theorem var_es_finite_branch (level z : ℝ) (l : List ℝ) (h2 : 2 ≤ l.length)
    (hvar : bvarR l ≠ 0) (hden : Real.sqrt (2 * Real.pi) * (1 - level) ≠ 0) :
    var_es level z (l.map finite) =
      (finite (max 0 (z * Real.sqrt (bvarR l) - meanR l)),
       finite (max 0 (Real.sqrt (bvarR l) * Real.exp (-z ^ 2 / 2) /
         (Real.sqrt (2 * Real.pi) * (1 - level)) - meanR l))) := by
  have h0 : l ≠ [] := by
    rintro rfl
    simp at h2
  have hlen : ¬ ((l.map finite).length = 0) := by
    simp only [List.length_map]
    omega
  have hlen1 : 1 < (l.map finite).length := by
    simp only [List.length_map]
    omega
  have hbpos : 0 < bvarR l := lt_of_le_of_ne (bvarR_nonneg l h2) (Ne.symm hvar)
  have hsq : Real.sqrt (bvarR l) ≠ 0 := ne_of_gt (Real.sqrt_pos.mpr hbpos)
  simp only [var_es, if_neg hlen, if_pos hlen1, pyStd_map_finite l h2,
    pyMean_map_finite l h0, PyF.finite.injEq, if_neg hsq,
    pySub, pyNeg, pyMul, pyAdd, pyExp, pyDiv, if_neg hden, pyMax_finite,
    Prod.mk.injEq]
  constructor <;> (congr 1; ring)

/-! ## C7 -/

/-- C7 amended: on a non-empty all-finite return sample with positive
sample mean and positive Bessel variance, and any level in `(0,1)`,
`_var_es` always yields finite VaR ≥ 0 and ES ≥ 0; the ordering
ES ≥ VaR holds whenever the drawn quantile magnitude `z` satisfies
`z·√(2π)·(1−level) ≤ exp(−z²/2)` (true for the exact Gaussian quantile
at high levels such as 0.99, but false at low levels), and fails
otherwise — see the counterexample. -/
theorem c7_amended (l : List ℝ) (level z : ℝ) (hne : l ≠ [])
    (hmean : 0 < meanR l) (hvar : 0 < bvarR l)
    (hl0 : 0 < level) (hl1 : level < 1) (hz : 0 ≤ z) :
    (var_es level z (l.map finite)).1.isFinite = true ∧
    (var_es level z (l.map finite)).2.isFinite = true ∧
    pyLeP (finite 0) (var_es level z (l.map finite)).1 ∧
    pyLeP (finite 0) (var_es level z (l.map finite)).2 ∧
    (z * (Real.sqrt (2 * Real.pi) * (1 - level)) ≤ Real.exp (-z ^ 2 / 2) →
      pyLeP (var_es level z (l.map finite)).1 (var_es level z (l.map finite)).2) := by
  have h2 : 2 ≤ l.length := by
    rcases l with _ | ⟨a, _ | ⟨b, t⟩⟩
    · exact absurd rfl hne
    · exfalso
      have hb : bvarR [a] = 0 := by
        norm_num [bvarR]
      rw [hb] at hvar
      exact lt_irrefl 0 hvar
    · simp only [List.length_cons]
      omega
  have hc : 0 < Real.sqrt (2 * Real.pi) * (1 - level) := by
    apply mul_pos
    · exact Real.sqrt_pos.mpr (by positivity)
    · linarith
  rw [var_es_finite_branch level z l h2 (ne_of_gt hvar) (ne_of_gt hc)]
  have hσ : 0 < Real.sqrt (bvarR l) := Real.sqrt_pos.mpr hvar
  refine ⟨rfl, rfl, le_max_left 0 _, le_max_left 0 _, fun hcond => ?_⟩
  show max 0 _ ≤ max 0 _
  apply max_le_max le_rfl
  apply sub_le_sub_right
  have hzc : z ≤ Real.exp (-z ^ 2 / 2) / (Real.sqrt (2 * Real.pi) * (1 - level)) :=
    (le_div_iff hc).mpr hcond
  calc z * Real.sqrt (bvarR l)
      ≤ (Real.exp (-z ^ 2 / 2) / (Real.sqrt (2 * Real.pi) * (1 - level))) *
        Real.sqrt (bvarR l) := mul_le_mul_of_nonneg_right hzc hσ.le
    _ = Real.sqrt (bvarR l) * Real.exp (-z ^ 2 / 2) /
        (Real.sqrt (2 * Real.pi) * (1 - level)) := by ring

/-- C7 counterexample: at confidence level 0.10 — inside `(0,1)` — with
the drawn quantile magnitude `z = 1.3` (the exact Gaussian value is
`|Φ⁻¹(0.9)| ≈ 1.2816`), the positive-mean positive-variance sample
`[0.2, 0]` yields VaR > ES: the claimed ordering ES ≥ VaR fails for low
confidence levels. -/
theorem c7_counterexample :
    0 < meanR [1 / 5, 0] ∧ 0 < bvarR [1 / 5, 0] ∧
    ((0 : ℝ) < 1 / 10 ∧ (1 : ℝ) / 10 < 1) ∧
    pyGtP (var_es (1 / 10) (13 / 10) (([1 / 5, 0] : List ℝ).map finite)).1
      (var_es (1 / 10) (13 / 10) (([1 / 5, 0] : List ℝ).map finite)).2 := by
  have hm : meanR [1 / 5, 0] = 1 / 10 := by
    norm_num [meanR, List.sum_cons]
  have hv : bvarR [1 / 5, 0] = 1 / 50 := by
    norm_num [bvarR, meanR, List.sum_cons, List.map_cons]
  have hden : Real.sqrt (2 * Real.pi) * (1 - 1 / 10) ≠ 0 := by
    have : 0 < Real.sqrt (2 * Real.pi) := Real.sqrt_pos.mpr (by positivity)
    positivity
  have hbr := var_es_finite_branch (1 / 10) (13 / 10) [1 / 5, 0] (by norm_num)
    (by rw [hv]; norm_num) hden
  rw [hm, hv] at hbr
  rw [hbr]
  have hs1 : Real.sqrt (1 / 50) ≤ 3 / 20 := by
    rw [show (1 : ℝ) / 50 = 8 / 400 by norm_num]
    calc Real.sqrt (8 / 400) ≤ Real.sqrt (9 / 400) := Real.sqrt_le_sqrt (by norm_num)
      _ = 3 / 20 := by
        rw [show (9 : ℝ) / 400 = (3 / 20) ^ 2 by norm_num]
        exact Real.sqrt_sq (by norm_num)
  have hs2 : 7 / 50 ≤ Real.sqrt (1 / 50) := by
    calc (7 : ℝ) / 50 = Real.sqrt ((7 / 50) ^ 2) := (Real.sqrt_sq (by norm_num)).symm
      _ ≤ Real.sqrt (1 / 50) := Real.sqrt_le_sqrt (by norm_num)
  have hexp : Real.exp (-(13 / 10) ^ 2 / 2) ≤ 200 / 369 := by
    have h1 : (369 : ℝ) / 200 ≤ Real.exp (169 / 200) := by
      have := Real.add_one_le_exp (169 / 200 : ℝ)
      linarith
    have h2 : Real.exp (-(13 / 10) ^ 2 / 2) = (Real.exp (169 / 200))⁻¹ := by
      rw [← Real.exp_neg]
      norm_num
    rw [h2]
    rw [show (200 : ℝ) / 369 = ((369 : ℝ) / 200)⁻¹ by norm_num]
    exact inv_le_inv_of_le (by norm_num) h1
  have hpi : 5 / 2 ≤ Real.sqrt (2 * Real.pi) := by
    calc (5 : ℝ) / 2 = Real.sqrt ((5 / 2) ^ 2) := (Real.sqrt_sq (by norm_num)).symm
      _ ≤ Real.sqrt (2 * Real.pi) := by
        apply Real.sqrt_le_sqrt
        nlinarith [Real.pi_gt_3141592]
  have hcge : (9 : ℝ) / 4 ≤ Real.sqrt (2 * Real.pi) * (1 - 1 / 10) := by
    nlinarith
  have hnum : Real.sqrt (1 / 50) * Real.exp (-(13 / 10) ^ 2 / 2) ≤ 3 / 20 * (200 / 369) := by
    apply mul_le_mul hs1 hexp (Real.exp_pos _).le (by norm_num)
  have hesle : Real.sqrt (1 / 50) * Real.exp (-(13 / 10) ^ 2 / 2) /
      (Real.sqrt (2 * Real.pi) * (1 - 1 / 10)) ≤ 3 / 20 * (200 / 369) / (9 / 4) := by
    apply div_le_div (by norm_num) hnum (by norm_num) hcge
  have hB : Real.sqrt (1 / 50) * Real.exp (-(13 / 10) ^ 2 / 2) /
      (Real.sqrt (2 * Real.pi) * (1 - 1 / 10)) - 1 / 10 ≤ 0 := by
    nlinarith
  have hA : (0 : ℝ) < 13 / 10 * Real.sqrt (1 / 50) - 1 / 10 := by
    nlinarith
  refine ⟨by rw [hm]; norm_num, by rw [hv]; norm_num, ⟨by norm_num, by norm_num⟩, ?_⟩
  show max 0 _ < max 0 _
  rw [max_eq_left hB, max_eq_right hA.le]
  exact hA

/-- Witness for C7 at level 0.5, sample `[0.3, 0.1]`, drawn quantile 0. -/
theorem c7_witness :
    (([3 / 10, 1 / 10] : List ℝ) ≠ [] ∧ 0 < meanR [3 / 10, 1 / 10] ∧
      0 < bvarR [3 / 10, 1 / 10] ∧ (0 : ℝ) < 1 / 2 ∧ (1 : ℝ) / 2 < 1 ∧ (0 : ℝ) ≤ 0 ∧
      0 * (Real.sqrt (2 * Real.pi) * (1 - 1 / 2)) ≤ Real.exp (-(0 : ℝ) ^ 2 / 2)) ∧
    ((var_es (1 / 2) 0 (([3 / 10, 1 / 10] : List ℝ).map finite)).1.isFinite = true ∧
     (var_es (1 / 2) 0 (([3 / 10, 1 / 10] : List ℝ).map finite)).2.isFinite = true ∧
     pyLeP (finite 0) (var_es (1 / 2) 0 (([3 / 10, 1 / 10] : List ℝ).map finite)).1 ∧
     pyLeP (finite 0) (var_es (1 / 2) 0 (([3 / 10, 1 / 10] : List ℝ).map finite)).2 ∧
     pyLeP (var_es (1 / 2) 0 (([3 / 10, 1 / 10] : List ℝ).map finite)).1
       (var_es (1 / 2) 0 (([3 / 10, 1 / 10] : List ℝ).map finite)).2) := by
  have hm : meanR [3 / 10, 1 / 10] = 1 / 5 := by
    norm_num [meanR, List.sum_cons]
  have hv : bvarR [3 / 10, 1 / 10] = 1 / 50 := by
    norm_num [bvarR, meanR, List.sum_cons, List.map_cons]
  have hcond : (0 : ℝ) * (Real.sqrt (2 * Real.pi) * (1 - 1 / 2)) ≤
      Real.exp (-(0 : ℝ) ^ 2 / 2) := by
    rw [zero_mul]
    exact (Real.exp_pos _).le
  have h := c7_amended [3 / 10, 1 / 10] (1 / 2) 0 (by simp) (by rw [hm]; norm_num)
    (by rw [hv]; norm_num) (by norm_num) (by norm_num) le_rfl
  exact ⟨⟨by simp, by rw [hm]; norm_num, by rw [hv]; norm_num, by norm_num, by norm_num,
    le_rfl, hcond⟩, h.1, h.2.1, h.2.2.1, h.2.2.2.1, h.2.2.2.2 hcond⟩

/-! ## OLS lemmas for C9 and C6 -/

theorem pyVarB_singleton (r : ℝ) : pyVarB [finite r] = nan := by
  have hm : pyMean [finite r] = finite r := by
    show pyDiv (pyAdd (finite r) (finite 0)) (finite ((1 : ℕ) : ℝ)) = finite r
    norm_num [pyAdd, pyDiv]
  simp only [pyVarB, hm, List.map_cons, List.map_nil, List.length_cons, List.length_nil]
  norm_num [pySub, pyAdd, pyNeg, pyMul, pySum, pyDiv]

theorem residuals_mean_zero_form (x y : List ℝ) :
    residuals x y = (List.zip x y).map
      (fun p => p.2 - (meanR y + olsSlope x y * (p.1 - meanR x))) := rfl

/-- A sum of squared deviations vanishes only for a constant list. -/
theorem sum_sq_dev_eq_zero (l : List ℝ) (m : ℝ)
    (h : (l.map (fun v => (v - m) ^ 2)).sum = 0) : ∀ v ∈ l, v = m := by
  induction l with
  | nil => simp
  | cons a t ih =>
    simp only [List.map_cons, List.sum_cons] at h
    have h1 : 0 ≤ (a - m) ^ 2 := sq_nonneg _
    have h2 : 0 ≤ (t.map (fun v => (v - m) ^ 2)).sum := by
      apply List.sum_nonneg
      intro v hv
      obtain ⟨w, _, rfl⟩ := List.mem_map.mp hv
      positivity
    have ha : (a - m) ^ 2 = 0 := by linarith
    have hrest : (t.map (fun v => (v - m) ^ 2)).sum = 0 := by linarith
    intro v hv
    rcases List.mem_cons.mp hv with rfl | hv
    · have := pow_eq_zero_iff (n := 2) (by norm_num) |>.mp ha
      linarith [sub_eq_zero.mp this]
    · exact ih hrest v hv

theorem sxx_ne_zero_of_two_ne (l : List ℝ) (a b : ℝ) (ha : a ∈ l) (hb : b ∈ l)
    (hne : a ≠ b) : sxx l ≠ 0 := by
  intro h
  have := sum_sq_dev_eq_zero l (meanR l) h
  exact hne ((this a ha).trans (this b hb).symm)

theorem sum_map_double (l : List ℝ) : (l.map (fun v => 2 * v)).sum = 2 * l.sum := by
  induction l with
  | nil => simp
  | cons a t ih =>
    simp only [List.map_cons, List.sum_cons, ih]
    ring

theorem sum_map_const_real (l : List ℝ) (c : ℝ) :
    (l.map (fun _ => c)).sum = l.length * c := by
  induction l with
  | nil => simp
  | cons a t ih =>
    simp only [List.map_cons, List.sum_cons, ih, List.length_cons]
    push_cast
    ring

theorem meanR_map_double (l : List ℝ) :
    meanR (l.map (fun v => 2 * v)) = 2 * meanR l := by
  simp only [meanR, List.length_map, sum_map_double]
  ring

/-- Slope of the response `2·x` on regressor `x`: exactly `2` when the
regressor is not degenerate. -/
theorem olsSlope_double (l : List ℝ) (h : sxx l ≠ 0) :
    olsSlope l (l.map (fun v => 2 * v)) = 2 := by
  have hzip : List.zip l (l.map (fun v => 2 * v)) = l.map (fun v => (v, 2 * v)) :=
    (List.zip_map' (fun v => v) (fun v => 2 * v) l).symm ▸ by
      simp [List.zip_map']
  have hsxy : sxy l (l.map (fun v => 2 * v)) = 2 * sxx l := by
    simp only [sxy, hzip, meanR_map_double, List.map_map, sxx]
    rw [← List.sum_map_mul_left]
    apply congrArg
    apply List.map_congr_left
    intro v hv
    simp only [Function.comp_apply]
    ring
  simp only [olsSlope, if_neg h, hsxy]
  field_simp

/-- Residuals of the perfect fit `y = 2·x` are identically zero. -/
theorem residuals_double (l : List ℝ) (h : sxx l ≠ 0) :
    residuals l (l.map (fun v => 2 * v)) = l.map (fun _ => (0 : ℝ)) := by
  have hzip : ∀ t : List ℝ, List.zip t (t.map (fun v => 2 * v)) =
      t.map (fun v => (v, 2 * v)) := by
    intro t
    induction t with
    | nil => rfl
    | cons a s ih => simp [ih]
  simp only [residuals, hzip, List.map_map, olsSlope_double l h, meanR_map_double]
  apply List.map_congr_left
  intro v hv
  simp only [Function.comp_apply]
  ring

theorem bvarR_zeros (l : List ℝ) :
    bvarR (l.map (fun _ => (0 : ℝ))) = 0 := by
  have hm : meanR (l.map (fun _ => (0 : ℝ))) = 0 := by
    simp only [meanR, List.length_map, sum_map_const_real]
    simp
  rw [bvarR, hm, List.map_map]
  rw [show ((fun x => (x - (0 : ℝ)) ^ 2) ∘ fun _ : ℝ => (0 : ℝ)) =
    (fun _ : ℝ => ((0 : ℝ) - 0) ^ 2) from rfl]
  rw [sum_map_const_real]
  norm_num

/-! ## C9 -/

/-- C9 amended: for a cleaned table with exactly the two symbols `A`
and `B` whose fully-aligned returns satisfy `ret_B = 2 · ret_A`,
`factor_regression` with market `A` returns the single record
`(B, beta = 2, residual variance = 0)` — exactly — **provided** at
least two aligned dates remain and the market's aligned returns are
not all equal.  (With one aligned date or a constant market column the
least-squares slope degenerates to `0`; see the counterexample.) -/
theorem c9_amended (df : List CleanRow) (symA symB : String)
    (hne : symA ≠ symB)
    (hdup : hasDupKey df = false)
    (hcols : sortedSymbols df = [symA, symB])
    (h2 : 2 ≤ (alignedDates df).length)
    (hrel : ∀ d ∈ alignedDates df, ∃ x : ℝ,
      cell df symA d = finite x ∧ cell df symB d = finite (2 * x))
    (hvarx : ∃ d1 ∈ alignedDates df, ∃ d2 ∈ alignedDates df,
      pyToReal (cell df symA d1) ≠ pyToReal (cell df symA d2)) :
    factor_regression df symA = Except.ok ([(symB, finite 2)], [(symB, finite 0)]) := by
  have hysx : (alignedDates df).map (fun d => pyToReal (cell df symB d)) =
      ((alignedDates df).map (fun d => pyToReal (cell df symA d))).map (fun v => 2 * v) := by
    rw [List.map_map]
    apply List.map_congr_left
    intro d hd
    obtain ⟨x, hA, hB⟩ := hrel d hd
    simp [Function.comp, hA, hB, pyToReal]
  have hsxx : sxx ((alignedDates df).map (fun d => pyToReal (cell df symA d))) ≠ 0 := by
    obtain ⟨d1, hd1, d2, hd2, hne12⟩ := hvarx
    exact sxx_ne_zero_of_two_ne _ _ _ (List.mem_map_of_mem _ hd1)
      (List.mem_map_of_mem _ hd2) hne12
  have hfin : ((alignedDates df).all
      (fun d => (sortedSymbols df).all (fun s => (cell df s d).isFinite))) = true := by
    rw [List.all_eq_true]
    intro d hd
    rw [List.all_eq_true]
    intro s hs
    rw [hcols] at hs
    obtain ⟨x, hA, hB⟩ := hrel d hd
    rcases List.mem_cons.mp hs with rfl | hs
    · rw [hA]; rfl
    · rcases List.mem_cons.mp hs with rfl | hs
      · rw [hB]; rfl
      · simp at hs
  have hBA : (symB == symA) = false := by
    simp [hne.symm]
  have hds0 : ¬ ((alignedDates df).length = 0) := by omega
  have hlen : ¬ ((sortedSymbols df).length < 2) := by
    rw [hcols]
    simp
  have hmem : symA ∈ sortedSymbols df := by
    rw [hcols]
    simp
  simp only [factor_regression, hdup, Bool.false_eq_true, if_false, hcols]
  rw [if_pos (show symA ∈ [symA, symB] by simp)]
  rw [if_neg (by
    push_neg
    constructor
    · simp
    · simp)]
  rw [if_neg hds0]
  rw [hcols] at hfin
  rw [hfin]
  simp only [Bool.not_true, Bool.false_eq_true, if_false]
  have hfilter : [symA, symB].filter (fun s => !(s == symA)) = [symB] := by
    simp [List.filter, hBA]
  rw [hfilter]
  simp only [List.map_cons, List.map_nil]
  rw [hysx, olsSlope_double _ hsxx]
  have hres : residVar ((alignedDates df).map (fun d => pyToReal (cell df symA d)))
      (((alignedDates df).map (fun d => pyToReal (cell df symA d))).map (fun v => 2 * v)) =
      finite 0 := by
    rw [residVar, residuals_double _ hsxx]
    have hlen2 : 2 ≤ (((alignedDates df).map (fun d => pyToReal (cell df symA d))).map
        (fun _ => (0 : ℝ))).length := by
      simp only [List.length_map]
      omega
    rw [show ((((alignedDates df).map (fun d => pyToReal (cell df symA d))).map
        (fun _ => (0 : ℝ))).map finite) =
      ((((alignedDates df).map (fun d => pyToReal (cell df symA d))).map
        (fun _ => (0 : ℝ))).map PyF.finite) from rfl]
    rw [pyVarB_map_finite _ (by simpa using hlen2)]
    rw [show (((alignedDates df).map (fun d => pyToReal (cell df symA d))).map
        (fun _ => (0 : ℝ))) = ((alignedDates df).map (fun d => pyToReal (cell df symA d))).map
        (fun _ => (0 : ℝ)) from rfl]
    rw [bvarR_zeros]
  rw [hres]

/-- C9 counterexample: two symbols with `ret_B = 2 · ret_A` exactly but
only one aligned date: the minimum-norm least-squares slope is `0`, not
`2`, and the Bessel-corrected residual variance of the single residual
is `nan`, not `0`. -/
theorem c9_counterexample :
    (∀ d ∈ alignedDates [⟨1, "A", finite 1, finite (1 / 10)⟩,
        ⟨1, "B", finite 1, finite (1 / 5)⟩],
      ∃ x : ℝ,
        cell [⟨1, "A", finite 1, finite (1 / 10)⟩, ⟨1, "B", finite 1, finite (1 / 5)⟩] "A" d =
          finite x ∧
        cell [⟨1, "A", finite 1, finite (1 / 10)⟩, ⟨1, "B", finite 1, finite (1 / 5)⟩] "B" d =
          finite (2 * x)) ∧
    factor_regression [⟨1, "A", finite 1, finite (1 / 10)⟩,
        ⟨1, "B", finite 1, finite (1 / 5)⟩] "A" =
      Except.ok ([("B", finite 0)], [("B", PyF.nan)]) := by
  have hds : alignedDates [⟨1, "A", finite 1, finite (1 / 10)⟩,
      ⟨1, "B", finite 1, finite (1 / 5)⟩] = [1] := rfl
  have hcA : cell [⟨1, "A", finite 1, finite (1 / 10)⟩,
      ⟨1, "B", finite 1, finite (1 / 5)⟩] "A" 1 = finite (1 / 10) := rfl
  have hcB : cell [⟨1, "A", finite 1, finite (1 / 10)⟩,
      ⟨1, "B", finite 1, finite (1 / 5)⟩] "B" 1 = finite (1 / 5) := rfl
  constructor
  · intro d hd
    rw [hds] at hd
    simp only [List.mem_singleton] at hd
    subst hd
    exact ⟨1 / 10, hcA, by rw [hcB]; norm_num⟩
  · have hsxx1 : sxx [(1 : ℝ) / 10] = 0 := by
      norm_num [sxx, meanR, List.map_cons, List.sum_cons]
    have hols : olsSlope [(1 : ℝ) / 10] [(1 : ℝ) / 5] = 0 := by
      rw [olsSlope, if_pos hsxx1]
    have hres : residuals [(1 : ℝ) / 10] [(1 : ℝ) / 5] = [0] := by
      simp only [residuals, List.zip, List.zipWith, List.map_cons, List.map_nil]
      norm_num [meanR, List.sum_cons]
    have hrv : residVar [(1 : ℝ) / 10] [(1 : ℝ) / 5] = nan := by
      rw [residVar, hres]
      simp only [List.map_cons, List.map_nil]
      exact pyVarB_singleton 0
    simp only [factor_regression]
    rw [if_neg (show ¬ (hasDupKey [⟨1, "A", finite 1, finite (1 / 10)⟩,
      ⟨1, "B", finite 1, finite (1 / 5)⟩] = true) by decide)]
    rw [show sortedSymbols [⟨1, "A", finite 1, finite (1 / 10)⟩,
      ⟨1, "B", finite 1, finite (1 / 5)⟩] = ["A", "B"] from rfl]
    rw [if_pos (show "A" ∈ ["A", "B"] by simp)]
    rw [if_neg (by
      push_neg
      exact ⟨by simp, by simp⟩)]
    rw [hds]
    rw [if_neg (show ¬ (([1] : List ℕ).length = 0) by simp)]
    rw [show (([1] : List ℕ).all fun d => (["A", "B"].all fun s =>
      (cell [⟨1, "A", finite 1, finite (1 / 10)⟩,
        ⟨1, "B", finite 1, finite (1 / 5)⟩] s d).isFinite)) = true from rfl]
    simp only [Bool.not_true, Bool.false_eq_true, if_false]
    rw [show (["A", "B"].filter fun s => !(s == "A")) = ["B"] from rfl]
    simp only [List.map_cons, List.map_nil, hcA, hcB]
    rw [show pyToReal (finite (1 / 10)) = 1 / 10 from rfl,
      show pyToReal (finite (1 / 5)) = 1 / 5 from rfl]
    rw [hols, hrv]

/-- Witness for C9: two aligned dates with a non-constant market. -/
theorem c9_witness :
    (2 : ℕ) ≤ (alignedDates [⟨1, "A", finite 1, finite (1 / 10)⟩,
      ⟨2, "A", finite 1, finite (3 / 10)⟩, ⟨1, "B", finite 1, finite (1 / 5)⟩,
      ⟨2, "B", finite 1, finite (3 / 5)⟩]).length ∧
    factor_regression [⟨1, "A", finite 1, finite (1 / 10)⟩,
      ⟨2, "A", finite 1, finite (3 / 10)⟩, ⟨1, "B", finite 1, finite (1 / 5)⟩,
      ⟨2, "B", finite 1, finite (3 / 5)⟩] "A" =
      Except.ok ([("B", finite 2)], [("B", finite 0)]) := by
  have hdsv : alignedDates [⟨1, "A", finite 1, finite (1 / 10)⟩,
      ⟨2, "A", finite 1, finite (3 / 10)⟩, ⟨1, "B", finite 1, finite (1 / 5)⟩,
      ⟨2, "B", finite 1, finite (3 / 5)⟩] = [1, 2] := rfl
  have h2 : (2 : ℕ) ≤ (alignedDates [⟨1, "A", finite 1, finite (1 / 10)⟩,
      ⟨2, "A", finite 1, finite (3 / 10)⟩, ⟨1, "B", finite 1, finite (1 / 5)⟩,
      ⟨2, "B", finite 1, finite (3 / 5)⟩]).length := by
    rw [hdsv]
    norm_num
  refine ⟨h2, c9_amended _ "A" "B" (by decide) rfl rfl h2 ?_ ?_⟩
  · intro d hd
    rw [hdsv] at hd
    rcases List.mem_cons.mp hd with rfl | hd
    · refine ⟨1 / 10, rfl, ?_⟩
      rw [show cell [⟨1, "A", finite 1, finite (1 / 10)⟩,
        ⟨2, "A", finite 1, finite (3 / 10)⟩, ⟨1, "B", finite 1, finite (1 / 5)⟩,
        ⟨2, "B", finite 1, finite (3 / 5)⟩] "B" 1 = finite (1 / 5) from rfl]
      norm_num
    · rcases List.mem_cons.mp hd with rfl | hd
      · refine ⟨3 / 10, rfl, ?_⟩
        rw [show cell [⟨1, "A", finite 1, finite (1 / 10)⟩,
          ⟨2, "A", finite 1, finite (3 / 10)⟩, ⟨1, "B", finite 1, finite (1 / 5)⟩,
          ⟨2, "B", finite 1, finite (3 / 5)⟩] "B" 2 = finite (3 / 5) from rfl]
        norm_num
      · simp at hd
  · refine ⟨1, by rw [hdsv]; simp, 2, by rw [hdsv]; simp, ?_⟩
    rw [show cell [⟨1, "A", finite 1, finite (1 / 10)⟩,
      ⟨2, "A", finite 1, finite (3 / 10)⟩, ⟨1, "B", finite 1, finite (1 / 5)⟩,
      ⟨2, "B", finite 1, finite (3 / 5)⟩] "A" 1 = finite (1 / 10) from rfl]
    rw [show cell [⟨1, "A", finite 1, finite (1 / 10)⟩,
      ⟨2, "A", finite 1, finite (3 / 10)⟩, ⟨1, "B", finite 1, finite (1 / 5)⟩,
      ⟨2, "B", finite 1, finite (3 / 5)⟩] "A" 2 = finite (3 / 10) from rfl]
    show (1 : ℝ) / 10 ≠ 3 / 10
    norm_num

/-! ## C2 -/

theorem zip_self_eq_map (l : List ℝ) : List.zip l l = l.map (fun v => (v, v)) := by
  induction l with
  | nil => rfl
  | cons a t ih => simp [ih]

theorem olsSlope_self (l : List ℝ) (h : sxx l ≠ 0) : olsSlope l l = 1 := by
  have hsxy : sxy l l = sxx l := by
    simp only [sxy, sxx, zip_self_eq_map, List.map_map]
    apply congrArg
    apply List.map_congr_left
    intro v hv
    simp only [Function.comp_apply]
    ring
  simp only [olsSlope, if_neg h, hsxy]
  field_simp

theorem residuals_self (l : List ℝ) (h : sxx l ≠ 0) :
    residuals l l = l.map (fun _ => (0 : ℝ)) := by
  simp only [residuals, zip_self_eq_map, List.map_map, olsSlope_self l h]
  apply List.map_congr_left
  intro v hv
  simp only [Function.comp_apply]
  ring

theorem residVar_self (l : List ℝ) (h : sxx l ≠ 0) (h2 : 2 ≤ l.length) :
    residVar l l = finite 0 := by
  rw [residVar, residuals_self l h]
  have h2m : 2 ≤ (l.map (fun _ => (0 : ℝ))).length := by
    simpa using h2
  rw [pyVarB_map_finite _ h2m, bvarR_zeros]

theorem residVar_double (l : List ℝ) (h : sxx l ≠ 0) (h2 : 2 ≤ l.length) :
    residVar l (l.map (fun v => 2 * v)) = finite 0 := by
  rw [residVar, residuals_double l h]
  have h2m : 2 ≤ (l.map (fun _ => (0 : ℝ))).length := by
    simpa using h2
  rw [pyVarB_map_finite _ h2m, bvarR_zeros]
theorem c2_clean_eval :
    read_and_clean [⟨1, "A", finite 100⟩, ⟨2, "A", finite 110⟩, ⟨3, "A", finite 132⟩,
      ⟨1, "B", finite 50⟩, ⟨2, "B", finite 55⟩, ⟨3, "B", finite 66⟩] =
    [⟨2, "A", finite 110, finite (1 / 10)⟩, ⟨3, "A", finite 132, finite (1 / 5)⟩,
      ⟨2, "B", finite 55, finite (1 / 10)⟩, ⟨3, "B", finite 66, finite (1 / 5)⟩] := by
  have hsort : sortByLe rowLe (List.filter (fun r => !r.px.isNan)
      [⟨1, "A", finite 100⟩, ⟨2, "A", finite 110⟩, ⟨3, "A", finite 132⟩,
       ⟨1, "B", finite 50⟩, ⟨2, "B", finite 55⟩, ⟨3, "B", finite 66⟩]) =
      [⟨1, "A", finite 100⟩, ⟨2, "A", finite 110⟩, ⟨3, "A", finite 132⟩,
       ⟨1, "B", finite 50⟩, ⟨2, "B", finite 55⟩, ⟨3, "B", finite 66⟩] := rfl
  simp only [read_and_clean]
  rw [hsort]
  norm_num [pctChange, pctRet, pyDiv, pySub, pyAdd, pyNeg, PyF.isNan, List.filter,
    (by decide : ¬ ("A" : String) = "B")]

theorem c2_regression_eval :
    factor_regression [⟨2, "A", finite 110, finite (1 / 10)⟩,
      ⟨3, "A", finite 132, finite (1 / 5)⟩, ⟨2, "B", finite 55, finite (1 / 10)⟩,
      ⟨3, "B", finite 66, finite (1 / 5)⟩] "SPY" =
    Except.ok ([("B", finite 1)], [("B", finite 0)]) := by
  have hsxx : sxx [(1 : ℝ) / 10, 1 / 5] ≠ 0 := by
    norm_num [sxx, meanR, List.map_cons, List.sum_cons]
  have hols : olsSlope [(1 : ℝ) / 10, 1 / 5] [(1 : ℝ) / 10, 1 / 5] = 1 :=
    olsSlope_self _ hsxx
  have hrv : residVar [(1 : ℝ) / 10, 1 / 5] [(1 : ℝ) / 10, 1 / 5] = finite 0 :=
    residVar_self _ hsxx (by norm_num)
  simp only [factor_regression]
  rw [if_neg (show ¬ (hasDupKey [⟨2, "A", finite 110, finite (1 / 10)⟩,
    ⟨3, "A", finite 132, finite (1 / 5)⟩, ⟨2, "B", finite 55, finite (1 / 10)⟩,
    ⟨3, "B", finite 66, finite (1 / 5)⟩] = true) by decide)]
  rw [show sortedSymbols [⟨2, "A", finite 110, finite (1 / 10)⟩,
    ⟨3, "A", finite 132, finite (1 / 5)⟩, ⟨2, "B", finite 55, finite (1 / 10)⟩,
    ⟨3, "B", finite 66, finite (1 / 5)⟩] = ["A", "B"] from rfl]
  rw [if_neg (show ¬ (("SPY" : String) ∈ ["A", "B"]) by decide)]
  rw [show (["A", "B"] : List String).headD "SPY" = "A" from rfl]
  rw [if_neg (by
    push_neg
    exact ⟨by decide, by norm_num⟩)]
  rw [show alignedDates [⟨2, "A", finite 110, finite (1 / 10)⟩,
    ⟨3, "A", finite 132, finite (1 / 5)⟩, ⟨2, "B", finite 55, finite (1 / 10)⟩,
    ⟨3, "B", finite 66, finite (1 / 5)⟩] = [2, 3] from rfl]
  rw [if_neg (show ¬ (([2, 3] : List ℕ).length = 0) by norm_num)]
  rw [show (([2, 3] : List ℕ).all fun d => (["A", "B"].all fun s =>
    (cell [⟨2, "A", finite 110, finite (1 / 10)⟩, ⟨3, "A", finite 132, finite (1 / 5)⟩,
      ⟨2, "B", finite 55, finite (1 / 10)⟩, ⟨3, "B", finite 66, finite (1 / 5)⟩]
        s d).isFinite)) = true from rfl]
  simp only [Bool.not_true, Bool.false_eq_true, if_false]
  rw [show (["A", "B"].filter fun s => !(s == "A")) = ["B"] from rfl]
  simp only [List.map_cons, List.map_nil]
  rw [show pyToReal (cell [⟨2, "A", finite 110, finite (1 / 10)⟩,
    ⟨3, "A", finite 132, finite (1 / 5)⟩, ⟨2, "B", finite 55, finite (1 / 10)⟩,
    ⟨3, "B", finite 66, finite (1 / 5)⟩] "A" 2) = (1 : ℝ) / 10 from rfl,
    show pyToReal (cell [⟨2, "A", finite 110, finite (1 / 10)⟩,
    ⟨3, "A", finite 132, finite (1 / 5)⟩, ⟨2, "B", finite 55, finite (1 / 10)⟩,
    ⟨3, "B", finite 66, finite (1 / 5)⟩] "A" 3) = (1 : ℝ) / 5 from rfl,
    show pyToReal (cell [⟨2, "A", finite 110, finite (1 / 10)⟩,
    ⟨3, "A", finite 132, finite (1 / 5)⟩, ⟨2, "B", finite 55, finite (1 / 10)⟩,
    ⟨3, "B", finite 66, finite (1 / 5)⟩] "B" 2) = (1 : ℝ) / 10 from rfl,
    show pyToReal (cell [⟨2, "A", finite 110, finite (1 / 10)⟩,
    ⟨3, "A", finite 132, finite (1 / 5)⟩, ⟨2, "B", finite 55, finite (1 / 10)⟩,
    ⟨3, "B", finite 66, finite (1 / 5)⟩] "B" 3) = (1 : ℝ) / 5 from rfl]
  rw [hols, hrv]

/-- Full evaluation of the pipeline on a clean 2-symbol, 3-date source,
leaving the risk estimator's drawn quantile `z` symbolic: the `VaR`
entries of the result are exactly `_var_es` at the drawn `z`. -/
theorem c2_pipeline_eval (z : String → ℝ) :
    run_factor_model z (Except.ok [⟨1, "A", finite 100⟩, ⟨2, "A", finite 110⟩,
      ⟨3, "A", finite 132⟩, ⟨1, "B", finite 50⟩, ⟨2, "B", finite 55⟩,
      ⟨3, "B", finite 66⟩]) =
    { summary := [("B", finite 1,
        (var_es (99 / 100) (z "B") [finite (1 / 10), finite (1 / 5)]).1,
        (var_es (99 / 100) (z "B") [finite (1 / 10), finite (1 / 5)]).2, finite 0)]
      varChartX := ["B"]
      varChartY := [(var_es (99 / 100) (z "B") [finite (1 / 10), finite (1 / 5)]).1]
      betaChartX := ["B"]
      betaChartY := [finite 1]
      error := Option.none } := by
  simp only [run_factor_model, c2_clean_eval, c2_regression_eval]
  rfl

/-- C2 counterexample: the same source snapshot, two invocations whose
random standard-normal draws give quantile magnitudes `0` and `10`:
`run_factor_model` returns different results (the VaR chart differs),
so the pipeline is not a deterministic function of the input alone. -/
theorem c2_counterexample :
    run_factor_model (fun _ => 0) (Except.ok [⟨1, "A", finite 100⟩,
      ⟨2, "A", finite 110⟩, ⟨3, "A", finite 132⟩, ⟨1, "B", finite 50⟩,
      ⟨2, "B", finite 55⟩, ⟨3, "B", finite 66⟩]) ≠
    run_factor_model (fun _ => 10) (Except.ok [⟨1, "A", finite 100⟩,
      ⟨2, "A", finite 110⟩, ⟨3, "A", finite 132⟩, ⟨1, "B", finite 50⟩,
      ⟨2, "B", finite 55⟩, ⟨3, "B", finite 66⟩]) := by
  have hm : meanR [(1 : ℝ) / 10, 1 / 5] = 3 / 20 := by
    norm_num [meanR, List.sum_cons]
  have hv : bvarR [(1 : ℝ) / 10, 1 / 5] = 1 / 200 := by
    norm_num [bvarR, meanR, List.sum_cons, List.map_cons]
  have hden : Real.sqrt (2 * Real.pi) * (1 - 99 / 100) ≠ 0 := by
    have h1 : 0 < Real.sqrt (2 * Real.pi) := Real.sqrt_pos.mpr (by positivity)
    positivity
  have hmap : ([finite (1 / 10), finite (1 / 5)] : List PyF) =
      ([1 / 10, 1 / 5] : List ℝ).map finite := rfl
  have hbr0 := var_es_finite_branch (99 / 100) 0 [1 / 10, 1 / 5] (by norm_num)
    (by rw [hv]; norm_num) hden
  have hbr10 := var_es_finite_branch (99 / 100) 10 [1 / 10, 1 / 5] (by norm_num)
    (by rw [hv]; norm_num) hden
  rw [hm, hv] at hbr0 hbr10
  have hs2 : 1 / 15 ≤ Real.sqrt (1 / 200) := by
    calc (1 : ℝ) / 15 = Real.sqrt ((1 / 15) ^ 2) := (Real.sqrt_sq (by norm_num)).symm
      _ ≤ Real.sqrt (1 / 200) := Real.sqrt_le_sqrt (by norm_num)
  have h0v : (var_es (99 / 100) 0 (([1 / 10, 1 / 5] : List ℝ).map finite)).1 = finite 0 := by
    rw [hbr0]
    norm_num
  have h10v : (var_es (99 / 100) 10 (([1 / 10, 1 / 5] : List ℝ).map finite)).1 =
      finite (10 * Real.sqrt (1 / 200) - 3 / 20) := by
    rw [hbr10]
    have hpos : (0 : ℝ) < 10 * Real.sqrt (1 / 200) - 3 / 20 := by
      nlinarith
    rw [max_eq_right hpos.le]
  intro heq
  rw [c2_pipeline_eval (fun _ => 0), c2_pipeline_eval (fun _ => 10)] at heq
  have hy := congrArg AnalysisResult.varChartY heq
  simp only at hy
  rw [hmap] at hy
  rw [h0v, h10v] at hy
  have hne : (0 : ℝ) ≠ 10 * Real.sqrt (1 / 200) - 3 / 20 := by
    have : (0 : ℝ) < 10 * Real.sqrt (1 / 200) - 3 / 20 := by
      nlinarith
    linarith
  simp only [List.cons.injEq, and_true, PyF.finite.injEq] at hy
  exact hne hy

/-- C2 amended: the pipeline is deterministic *given the random draw*:
all nondeterminism enters through the risk estimator's quantile
magnitudes, so two invocations whose draws coincide return identical
results; and `_var_es` itself does not depend on the draw when the
return sample is degenerate (empty, a singleton, or with zero sample
standard deviation). -/
theorem c2_amended :
    (∀ (load : Except String (List RawRow)) (z1 z2 : String → ℝ),
      (∀ s, z1 s = z2 s) → run_factor_model z1 load = run_factor_model z2 load) ∧
    (∀ (level z1 z2 : ℝ) (arr : List PyF),
      (arr.length ≤ 1 ∨ pyStd arr = finite 0) →
        var_es level z1 arr = var_es level z2 arr) := by
  constructor
  · intro load z1 z2 h
    have hz : z1 = z2 := funext h
    rw [hz]
  · intro level z1 z2 arr h
    by_cases h0 : arr.length = 0
    · simp only [var_es, if_pos h0]
    · have hcase : (¬ (1 < arr.length)) ∨ pyStd arr = finite 0 := by
        rcases h with h | h
        · exact Or.inl (by omega)
        · exact Or.inr h
      rcases hcase with h1 | h1
      · simp only [var_es, if_neg h0, if_neg h1, if_true]
      · by_cases h2 : 1 < arr.length
        · simp only [var_es, if_neg h0, if_pos h2, h1, if_true]
        · simp only [var_es, if_neg h0, if_neg h2, if_true]

/-- Witness for C2: equal draws give equal results, and a singleton
sample is draw-independent. -/
theorem c2_witness :
    run_factor_model (fun _ => 0) (Except.error "unreadable") =
      run_factor_model (fun _ => 0) (Except.error "unreadable") ∧
    (([finite 5] : List PyF).length ≤ 1 ∨ pyStd [finite 5] = finite 0) ∧
    var_es (99 / 100) 1 [finite 5] = var_es (99 / 100) 2 [finite 5] :=
  ⟨c2_amended.1 _ _ _ (fun _ => rfl), Or.inl (by norm_num),
    c2_amended.2 _ _ _ _ (Or.inl (by norm_num))⟩

/-! ## Special-value propagation lemmas for C6 -/

theorem pySum_cons (a : PyF) (t : List PyF) : pySum (a :: t) = pyAdd a (pySum t) := rfl

theorem pyAdd_nan_right (x : PyF) : pyAdd x nan = nan := by
  cases x <;> rfl

theorem pySub_nan_right (x : PyF) : pySub x nan = nan := by
  cases x <;> rfl

theorem pyAdd_nan_left (x : PyF) : pyAdd nan x = nan := by
  cases x <;> rfl

theorem pySum_nan_mem (l : List PyF) (h : nan ∈ l) : pySum l = nan := by
  induction l with
  | nil => simp at h
  | cons a t ih =>
    rcases List.mem_cons.mp h with rfl | h
    · rw [pySum_cons, pyAdd_nan_left]
    · rw [pySum_cons, ih h, pyAdd_nan_right]

/-- Classification of the IEEE sum of a `nan`-free array by which
infinities it contains. -/
theorem pySum_classify (l : List PyF) (hno : ∀ a ∈ l, a ≠ nan) :
    (inf ∈ l ∧ neginf ∈ l ∧ pySum l = nan) ∨
    (inf ∈ l ∧ neginf ∉ l ∧ pySum l = inf) ∨
    (neginf ∈ l ∧ inf ∉ l ∧ pySum l = neginf) ∨
    (inf ∉ l ∧ neginf ∉ l ∧ ∃ x, pySum l = finite x) := by
  induction l with
  | nil =>
    refine Or.inr (Or.inr (Or.inr ⟨by simp, by simp, 0, rfl⟩))
  | cons a t ih =>
    have hat : ∀ b ∈ t, b ≠ nan := fun b hb => hno b (List.mem_cons_of_mem a hb)
    have hihs := ih hat
    cases a with
    | nan => exact absurd rfl (hno nan (List.mem_cons_self _ _))
    | finite x =>
      rcases hihs with ⟨h1, h2, h3⟩ | ⟨h1, h2, h3⟩ | ⟨h1, h2, h3⟩ | ⟨h1, h2, h3, h4⟩
      · exact Or.inl ⟨List.mem_cons_of_mem _ h1, List.mem_cons_of_mem _ h2,
          by rw [pySum_cons, h3, pyAdd_nan_right]⟩
      · exact Or.inr (Or.inl ⟨List.mem_cons_of_mem _ h1,
          by simp [List.mem_cons, h2], by rw [pySum_cons, h3]; rfl⟩)
      · exact Or.inr (Or.inr (Or.inl ⟨List.mem_cons_of_mem _ h1,
          by simp [List.mem_cons, h2], by rw [pySum_cons, h3]; rfl⟩))
      · exact Or.inr (Or.inr (Or.inr ⟨by simp [List.mem_cons, h1],
          by simp [List.mem_cons, h2], x + h3, by rw [pySum_cons, h4]; rfl⟩))
    | inf =>
      rcases hihs with ⟨h1, h2, h3⟩ | ⟨h1, h2, h3⟩ | ⟨h1, h2, h3⟩ | ⟨h1, h2, h3, h4⟩
      · exact Or.inl ⟨List.mem_cons_self _ _, List.mem_cons_of_mem _ h2,
          by rw [pySum_cons, h3, pyAdd_nan_right]⟩
      · exact Or.inr (Or.inl ⟨List.mem_cons_self _ _,
          by simp [List.mem_cons, h2], by rw [pySum_cons, h3]; rfl⟩)
      · exact Or.inl ⟨List.mem_cons_self _ _, List.mem_cons_of_mem _ h1,
          by rw [pySum_cons, h3]; rfl⟩
      · exact Or.inr (Or.inl ⟨List.mem_cons_self _ _,
          by simp [List.mem_cons, h2], by rw [pySum_cons, h4]; rfl⟩)
    | neginf =>
      rcases hihs with ⟨h1, h2, h3⟩ | ⟨h1, h2, h3⟩ | ⟨h1, h2, h3⟩ | ⟨h1, h2, h3, h4⟩
      · exact Or.inl ⟨List.mem_cons_of_mem _ h1, List.mem_cons_self _ _,
          by rw [pySum_cons, h3, pyAdd_nan_right]⟩
      · exact Or.inl ⟨List.mem_cons_of_mem _ h1, List.mem_cons_self _ _,
          by rw [pySum_cons, h3]; rfl⟩
      · exact Or.inr (Or.inr (Or.inl ⟨List.mem_cons_self _ _,
          by simp [List.mem_cons, h2], by rw [pySum_cons, h3]; rfl⟩))
      · exact Or.inr (Or.inr (Or.inl ⟨List.mem_cons_self _ _,
          by simp [List.mem_cons, h1], by rw [pySum_cons, h4]; rfl⟩))

theorem pyDiv_nan_left (x : PyF) : pyDiv nan x = nan := by
  cases x <;> rfl

/-- The Bessel variance of a `nan`-free array containing an infinity is
`nan` (the `inf - inf` deviation poisons the sum of squares). -/
theorem pyVarB_nonfinite (arr : List PyF) (hno : ∀ a ∈ arr, a ≠ nan)
    (hinf : inf ∈ arr ∨ neginf ∈ arr) : pyVarB arr = nan := by
  have hnan_mem : nan ∈ arr.map
      (fun x => pyMul (pySub x (pyMean arr)) (pySub x (pyMean arr))) := by
    rcases pySum_classify arr hno with ⟨h1, h2, h3⟩ | ⟨h1, h2, h3⟩ | ⟨h1, h2, h3⟩ |
      ⟨h1, h2, h3, h4⟩
    · have hmu : pyMean arr = nan := by
        rw [pyMean, h3, pyDiv_nan_left]
      refine List.mem_map.mpr ⟨inf, h1, ?_⟩
      rw [hmu, pySub_nan_right]
      rfl
    · have hmu : pyMean arr = inf := by
        rw [pyMean, h3]
        simp [pyDiv, Nat.cast_nonneg]
      refine List.mem_map.mpr ⟨inf, h1, ?_⟩
      rw [hmu]
      rfl
    · have hmu : pyMean arr = neginf := by
        rw [pyMean, h3]
        simp [pyDiv, Nat.cast_nonneg]
      refine List.mem_map.mpr ⟨neginf, h1, ?_⟩
      rw [hmu]
      rfl
    · rcases hinf with h | h
      · exact absurd h h1
      · exact absurd h h2
  rw [pyVarB, pySum_nan_mem _ hnan_mem, pyDiv_nan_left]

/-- On a finite sample of length at least two with zero variance,
`_var_es` takes the degenerate branch. -/
theorem var_es_sigma0_branch (level z : ℝ) (l : List ℝ) (h2 : 2 ≤ l.length)
    (hbv : bvarR l = 0) :
    var_es level z (l.map finite) =
      (finite (max 0 (-(meanR l))), finite (max 0 (-(meanR l)))) := by
  have h0 : l ≠ [] := by
    rintro rfl
    simp at h2
  have hlen : ¬ ((l.map finite).length = 0) := by
    simp only [List.length_map]
    omega
  have hlen1 : 1 < (l.map finite).length := by
    simp only [List.length_map]
    omega
  have hstd : pyStd (l.map finite) = finite 0 := by
    rw [pyStd_map_finite l h2, hbv, Real.sqrt_zero]
  simp only [var_es, if_neg hlen, if_pos hlen1, hstd, if_true, eq_self_iff_true,
    pyMean_map_finite l h0, pyNeg, pyMax_finite]

/-- `_var_es` on a `nan`-free sample of length at least two always
returns a pair of finite doubles (infinities collapse through the `nan`
cascade and Python's `max(0.0, nan) = 0.0`). -/
theorem var_es_no_nan_pair (z : ℝ) (arr : List PyF) (h2 : 2 ≤ arr.length)
    (hno : ∀ a ∈ arr, a.isNan = false) :
    ∃ v e : ℝ, var_es (99 / 100) z arr = (finite v, finite e) := by
  have hden : Real.sqrt (2 * Real.pi) * (1 - 99 / 100) ≠ 0 := by
    have h1 : 0 < Real.sqrt (2 * Real.pi) := Real.sqrt_pos.mpr (by positivity)
    positivity
  by_cases hall : ∀ a ∈ arr, a.isFinite = true
  · have hcongr : ∀ a ∈ arr, (fun b => finite (pyToReal b)) a = id a := by
      intro a ha
      have := hall a ha
      cases a <;> simp [PyF.isFinite, pyToReal] at this ⊢
    have harr : arr = (arr.map pyToReal).map finite := by
      rw [List.map_map]
      symm
      rw [show (finite ∘ pyToReal) = (fun b => finite (pyToReal b)) from rfl]
      rw [List.map_congr_left hcongr, List.map_id]
    have h2l : 2 ≤ (arr.map pyToReal).length := by
      simpa using h2
    by_cases hbv : bvarR (arr.map pyToReal) = 0
    · rw [harr, var_es_sigma0_branch (99 / 100) z _ h2l hbv]
      exact ⟨_, _, rfl⟩
    · rw [harr, var_es_finite_branch (99 / 100) z _ h2l hbv hden]
      exact ⟨_, _, rfl⟩
  · push_neg at hall
    obtain ⟨a0, ha0, hnf⟩ := hall
    have hno1 : ∀ a ∈ arr, a ≠ nan := by
      intro a ha hc
      subst hc
      have := hno nan ha
      simp [PyF.isNan] at this
    have hinf : inf ∈ arr ∨ neginf ∈ arr := by
      cases a0 with
      | finite x => simp [PyF.isFinite] at hnf
      | inf => exact Or.inl ha0
      | neginf => exact Or.inr ha0
      | nan =>
        exact absurd rfl (hno1 nan ha0)
    have hvb : pyVarB arr = nan := pyVarB_nonfinite arr hno1 hinf
    have hstd : pyStd arr = nan := by
      rw [pyStd, hvb]
      rfl
    have hlen0 : ¬ (arr.length = 0) := by omega
    have hlen1 : 1 < arr.length := by omega
    have hmax : pyMax (finite 0) nan = finite 0 := by
      simp [pyMax, pyGtP]
    refine ⟨0, 0, ?_⟩
    simp only [var_es, hlen0, hlen1, if_true, if_false, hstd]
    rw [show (if 1 < arr.length then pyStd arr else finite 0) = nan from by
      rw [if_pos hlen1, hstd]]
    rw [if_neg (show ¬ ((nan : PyF) = finite 0) from fun h => PyF.noConfusion h)]
    rw [show pyMul (finite z) nan = nan from rfl]
    rw [show pyMul nan (pyExp (finite (-z ^ 2 / 2))) = nan from rfl]
    rw [show pyDiv nan (finite (Real.sqrt (2 * Real.pi) * (1 - 99 / 100))) = nan from rfl]
    rw [pySub_nan_right]
    show (pyMax (finite 0) nan, pyMax (finite 0) nan) = _
    rw [hmax]

/-! ## List and table infrastructure for C6 -/

theorem count_insertLe {α : Type} [DecidableEq α] (le : α → α → Bool) (x y : α)
    (l : List α) : (insertLe le x l).count y = (x :: l).count y := by
  induction l with
  | nil => rfl
  | cons a t ih =>
    simp only [insertLe]
    by_cases h : le x a
    · rw [if_pos h]
    · rw [if_neg h]
      simp only [List.count_cons, ih]
      omega

theorem count_sortByLe {α : Type} [DecidableEq α] (le : α → α → Bool) (l : List α)
    (y : α) : (sortByLe le l).count y = l.count y := by
  induction l with
  | nil => rfl
  | cons a t ih =>
    show (insertLe le a (sortByLe le t)).count y = _
    rw [count_insertLe, List.count_cons, List.count_cons, ih]

theorem nodup_sortByLe {α : Type} [DecidableEq α] (le : α → α → Bool) (l : List α)
    (h : l.Nodup) : (sortByLe le l).Nodup := by
  rw [List.nodup_iff_count_le_one] at h ⊢
  intro a
  rw [count_sortByLe]
  exact h a

theorem alignedDates_nodup (df : List CleanRow) : (alignedDates df).Nodup := by
  apply List.Nodup.filter
  exact nodup_sortByLe _ _ (List.nodup_dedup _)

theorem two_le_length_of_mem_ne {α : Type} {a b : α} {l : List α} (ha : a ∈ l)
    (hb : b ∈ l) (hne : a ≠ b) : 2 ≤ l.length := by
  rcases l with _ | ⟨x, _ | ⟨y, t⟩⟩
  · simp at ha
  · simp only [List.mem_singleton] at ha hb
    exact absurd (ha.trans hb.symm) hne
  · simp only [List.length_cons]
    omega

theorem filter_map_comm {α β : Type} (f : α → β) (p : β → Bool) (l : List α) :
    (l.map f).filter p = (l.filter (fun a => p (f a))).map f := by
  induction l with
  | nil => rfl
  | cons a t ih =>
    simp only [List.map_cons, List.filter_cons]
    by_cases h : p (f a)
    · simp [h, ih]
    · simp [h, ih]

theorem riskArr_no_nan (rets : List PyF) : ∀ a ∈ riskArr rets, a.isNan = false := by
  intro a ha
  rw [riskArr_eq_filter] at ha
  have := List.of_mem_filter ha
  simpa using this

theorem cell_non_nan_row (df : List CleanRow) (s : String) (d : ℕ)
    (h : (cell df s d).isNan = false) :
    ∃ r ∈ df, r.symbol = s ∧ r.date = d ∧ r.ret = cell df s d := by
  have hcr : cell df s d = cellRaw df s d := rfl
  rw [hcr] at h ⊢
  cases hf : df.find? (fun r => r.symbol == s && r.date == d) with
  | none =>
    rw [cellRaw, hf] at h
    simp [PyF.isNan] at h
  | some r =>
    have hmem := List.mem_of_find?_eq_some hf
    have hpred := List.find?_some hf
    simp only [Bool.and_eq_true, beq_iff_eq] at hpred
    exact ⟨r, hmem, hpred.1, hpred.2, by rw [cellRaw, hf]⟩

/-- A symbol with non-`nan` wide cells at two distinct dates contributes
at least two values to its defensively-coerced return sample. -/
theorem riskArr_retsOf_len (df : List CleanRow) (s : String) (d1 d2 : ℕ)
    (hne : d1 ≠ d2)
    (h1 : (cell df s d1).isNan = false) (h2 : (cell df s d2).isNan = false) :
    2 ≤ (riskArr (retsOf df s)).length := by
  obtain ⟨r1, hr1, hs1, hd1, hret1⟩ := cell_non_nan_row df s d1 h1
  obtain ⟨r2, hr2, hs2, hd2, hret2⟩ := cell_non_nan_row df s d2 h2
  have hrne : r1 ≠ r2 := by
    intro hc
    exact hne (by rw [← hd1, hc, hd2])
  rw [riskArr_eq_filter, retsOf, filter_map_comm, List.length_map]
  have hm1 : r1 ∈ (df.filter (fun r => r.symbol == s)).filter
      (fun r => !r.ret.isNan) := by
    rw [List.mem_filter, List.mem_filter]
    refine ⟨⟨hr1, by simp [hs1]⟩, by rw [hret1]; simp [h1]⟩
  have hm2 : r2 ∈ (df.filter (fun r => r.symbol == s)).filter
      (fun r => !r.ret.isNan) := by
    rw [List.mem_filter, List.mem_filter]
    refine ⟨⟨hr2, by simp [hs2]⟩, by rw [hret2]; simp [h2]⟩
  exact two_le_length_of_mem_ne hm1 hm2 hrne

theorem residVar_finite (x y : List ℝ) (h2 : 2 ≤ (List.zip x y).length) :
    ∃ w, residVar x y = finite w := by
  rw [residVar]
  have hlen : 2 ≤ (residuals x y).length := by
    simpa [residuals] using h2
  rw [pyVarB_map_finite _ hlen]
  exact ⟨_, rfl⟩

theorem mem_buildSummary (betas : List (String × PyF)) (risk : List (String × PyF × PyF))
    (resid : List (String × PyF)) (rec : String × PyF × PyF × PyF × PyF)
    (h : rec ∈ buildSummary betas risk resid) :
    ∃ p ∈ betas, ∃ q ∈ risk, ∃ t ∈ resid,
      rec = (p.1, p.2, q.2.1, q.2.2, t.2) := by
  rw [buildSummary, mem_sortByLe] at h
  obtain ⟨p, hp, hmatch⟩ := List.mem_filterMap.mp h
  cases hq : risk.find? (fun q => q.1 == p.1) with
  | none =>
    rw [hq] at hmatch
    simp at hmatch
  | some q =>
    cases ht : resid.find? (fun t => t.1 == p.1) with
    | none =>
      rw [hq, ht] at hmatch
      simp at hmatch
    | some t =>
      rw [hq, ht] at hmatch
      simp only [Option.some.injEq] at hmatch
      exact ⟨p, hp, q, List.mem_of_find?_eq_some hq, t,
        List.mem_of_find?_eq_some ht, hmatch.symm⟩

theorem residVar_isFinite (x y : List ℝ) (h2 : 2 ≤ (List.zip x y).length) :
    (residVar x y).isFinite = true := by
  obtain ⟨w, hw⟩ := residVar_finite x y h2
  rw [hw]
  rfl

theorem exists_two_ne_of_nodup {α : Type} {l : List α} (h2 : 2 ≤ l.length)
    (hnd : l.Nodup) : ∃ a ∈ l, ∃ b ∈ l, a ≠ b := by
  rcases l with _ | ⟨x, _ | ⟨y, t⟩⟩
  · simp at h2
  · simp at h2
  · refine ⟨x, by simp, y, by simp, ?_⟩
    intro hc
    subst hc
    exact (List.nodup_cons.mp hnd).1 (by simp)

theorem cell_not_nan_of_aligned (df : List CleanRow) (d : ℕ)
    (hd : d ∈ alignedDates df) (s : String) (hs : s ∈ sortedSymbols df) :
    (cell df s d).isNan = false := by
  have hpred := List.of_mem_filter hd
  rw [List.all_eq_true] at hpred
  have := hpred s hs
  simpa using this

theorem resultValuesFinite_errorResult (e : String) :
    resultValuesFinite (errorResult e) := by
  refine ⟨?_, ?_, ?_⟩ <;> simp [errorResult]

/-- All floating values of the assembled result are finite as soon as
the beta and residual-variance frames are entrywise finite and at least
two aligned dates feed the risk estimator's samples. -/
theorem resultValuesFinite_build (z : String → ℝ) (df : List CleanRow)
    (betas resid : List (String × PyF))
    (h2 : 2 ≤ (alignedDates df).length)
    (hbetas : ∀ p ∈ betas, p.2.isFinite = true)
    (hresid : ∀ t ∈ resid, t.2.isFinite = true) :
    resultValuesFinite
      { summary := buildSummary betas (compute_risk (99 / 100) z df) resid
        varChartX := (buildSummary betas (compute_risk (99 / 100) z df) resid).map
          (fun r => r.1)
        varChartY := (buildSummary betas (compute_risk (99 / 100) z df) resid).map
          (fun r => r.2.2.1)
        betaChartX := (buildSummary betas (compute_risk (99 / 100) z df) resid).map
          (fun r => r.1)
        betaChartY := (buildSummary betas (compute_risk (99 / 100) z df) resid).map
          (fun r => r.2.1)
        error := Option.none } := by
  obtain ⟨d1, hd1, d2, hd2, hdne⟩ :=
    exists_two_ne_of_nodup h2 (alignedDates_nodup df)
  have hsumfin : ∀ rec ∈ buildSummary betas (compute_risk (99 / 100) z df) resid,
      rec.2.1.isFinite = true ∧ rec.2.2.1.isFinite = true ∧
      rec.2.2.2.1.isFinite = true ∧ rec.2.2.2.2.isFinite = true := by
    intro rec hrec
    obtain ⟨p, hp, q, hq, t, ht, hrec_eq⟩ := mem_buildSummary _ _ _ _ hrec
    subst hrec_eq
    obtain ⟨s, hs, hqs⟩ := List.mem_map.mp hq
    have hc1 := cell_not_nan_of_aligned df d1 hd1 s hs
    have hc2 := cell_not_nan_of_aligned df d2 hd2 s hs
    obtain ⟨v, e, hve⟩ := var_es_no_nan_pair (z s) _
      (riskArr_retsOf_len df s d1 d2 hdne hc1 hc2) (riskArr_no_nan _)
    refine ⟨hbetas p hp, ?_, ?_, hresid t ht⟩
    · rw [← hqs]
      show (var_es (99 / 100) (z s) (riskArr (retsOf df s))).1.isFinite = true
      rw [hve]
      rfl
    · rw [← hqs]
      show (var_es (99 / 100) (z s) (riskArr (retsOf df s))).2.isFinite = true
      rw [hve]
      rfl
  refine ⟨hsumfin, ?_, ?_⟩
  · intro y hy
    obtain ⟨rec, hrec, hyrec⟩ := List.mem_map.mp hy
    rw [← hyrec]
    exact (hsumfin rec hrec).2.1
  · intro y hy
    obtain ⟨rec, hrec, hyrec⟩ := List.mem_map.mp hy
    rw [← hyrec]
    exact (hsumfin rec hrec).1

/-- C6 amended: provided the strict full-alignment step does not leave
exactly one wide row, no `nan` and no infinity reaches the output:
every `Beta`, `VaR`, `ES` and `ResidualVar` in the summary and both
chart series of `run_factor_model` is a finite double.  (With exactly
one aligned date the emitted residual variance is `nan` — see the
counterexample.) -/
theorem c6_amended (z : String → ℝ) (rows : List RawRow)
    (halign : (alignedDates (read_and_clean rows)).length ≠ 1) :
    resultValuesFinite (run_factor_model z (Except.ok rows)) := by
  simp only [run_factor_model]
  cases hfr : factor_regression (read_and_clean rows) "SPY" with
  | error e =>
    exact resultValuesFinite_errorResult e
  | ok br =>
    by_cases hre : (compute_risk (99 / 100) z (read_and_clean rows)).isEmpty = true
    · simp only [hre, if_true]
      exact resultValuesFinite_errorResult _
    · have hre2 : (compute_risk (99 / 100) z (read_and_clean rows)).isEmpty = false := by
        cases hX : (compute_risk (99 / 100) z (read_and_clean rows)).isEmpty
        · rfl
        · exact absurd hX hre
      simp only [hre2, Bool.false_eq_true, if_false]
      by_cases hdup : hasDupKey (read_and_clean rows) = true
      · exfalso
        simp only [factor_regression] at hfr
        rw [if_pos hdup] at hfr
        exact Except.noConfusion hfr
      · by_cases hg : (if "SPY" ∈ sortedSymbols (read_and_clean rows) then "SPY"
            else (sortedSymbols (read_and_clean rows)).headD "SPY") ∉
              sortedSymbols (read_and_clean rows) ∨
            (sortedSymbols (read_and_clean rows)).length < 2
        · simp only [factor_regression] at hfr
          rw [if_neg hdup, if_pos hg] at hfr
          injection hfr with hbr
          rw [← hbr]
          refine ⟨?_, ?_, ?_⟩ <;> simp [buildSummary, sortByLe]
        · by_cases hds0 : (alignedDates (read_and_clean rows)).length = 0
          · simp only [factor_regression] at hfr
            rw [if_neg hdup, if_neg hg, if_pos hds0] at hfr
            injection hfr with hbr
            rw [← hbr]
            refine ⟨?_, ?_, ?_⟩ <;> simp [buildSummary, sortByLe]
          · have h2 : 2 ≤ (alignedDates (read_and_clean rows)).length := by
              omega
            by_cases hfin : ((alignedDates (read_and_clean rows)).all fun d =>
                (sortedSymbols (read_and_clean rows)).all fun s =>
                  (cell (read_and_clean rows) s d).isFinite) = true
            · simp only [factor_regression] at hfr
              rw [if_neg hdup, if_neg hg, if_neg hds0,
                if_neg (show ¬ ((!((alignedDates (read_and_clean rows)).all fun d =>
                  (sortedSymbols (read_and_clean rows)).all fun s =>
                    (cell (read_and_clean rows) s d).isFinite)) = true) by
                  rw [hfin]
                  simp)] at hfr
              injection hfr with hbr
              rw [← hbr]
              apply resultValuesFinite_build _ _ _ _ h2
              · intro p hp
                obtain ⟨a, ha, hpa⟩ := List.mem_map.mp hp
                rw [← hpa]
                rfl
              · intro t ht
                obtain ⟨a, ha, hta⟩ := List.mem_map.mp ht
                rw [← hta]
                show (residVar _ _).isFinite = true
                apply residVar_isFinite
                rw [List.length_zip, List.length_map, List.length_map]
                omega
            · exfalso
              simp only [factor_regression] at hfr
              rw [if_neg hdup, if_neg hg, if_neg hds0,
                if_pos (show (!((alignedDates (read_and_clean rows)).all fun d =>
                  (sortedSymbols (read_and_clean rows)).all fun s =>
                    (cell (read_and_clean rows) s d).isFinite)) = true by
                  cases hX : ((alignedDates (read_and_clean rows)).all fun d =>
                      (sortedSymbols (read_and_clean rows)).all fun s =>
                        (cell (read_and_clean rows) s d).isFinite)
                  · rfl
                  · exact absurd hX hfin)] at hfr
              exact Except.noConfusion hfr

/-- `_var_es` on a singleton sample takes the degenerate branch. -/
theorem var_es_singleton (level z r : ℝ) :
    var_es level z [finite r] = (finite (max 0 (-r)), finite (max 0 (-r))) := by
  have hm : pyMean [finite r] = finite r := by
    show pyDiv (pyAdd (finite r) (finite 0)) (finite ((1 : ℕ) : ℝ)) = finite r
    norm_num [pyAdd, pyDiv]
  simp only [var_es, List.length_singleton]
  rw [if_neg (by norm_num : ¬ ((1 : ℕ) = 0))]
  simp only [show (if 1 < 1 then pyStd [finite r] else finite 0) = finite 0 from
    if_neg (by norm_num)]
  rw [if_true, hm]
  show (pyMax (finite 0) (finite (-r)), pyMax (finite 0) (finite (-r))) = _
  rw [pyMax_finite]

/-- C6 counterexample: a defect-free two-symbol source whose alignment
leaves exactly one wide row.  The Bessel-corrected variance of the
single residual is `0/0 = nan`, and this `nan` is emitted in the
summary's `ResidualVar` — the output is not NaN-free. -/
theorem c6_counterexample :
    (run_factor_model (fun _ => 0) (Except.ok [⟨1, "A", finite 100⟩, ⟨2, "A", finite 101⟩,
        ⟨1, "B", finite 50⟩, ⟨2, "B", finite 51⟩])).summary =
      [("B", finite 0, finite 0, finite 0, PyF.nan)] ∧
    PyF.nan.isFinite = false ∧
    ¬ resultValuesFinite (run_factor_model (fun _ => 0) (Except.ok [⟨1, "A", finite 100⟩,
        ⟨2, "A", finite 101⟩, ⟨1, "B", finite 50⟩, ⟨2, "B", finite 51⟩])) := by
  have hsort : sortByLe rowLe (List.filter (fun r => !r.px.isNan)
      [⟨1, "A", finite 100⟩, ⟨2, "A", finite 101⟩, ⟨1, "B", finite 50⟩,
       ⟨2, "B", finite 51⟩]) =
      [⟨1, "A", finite 100⟩, ⟨2, "A", finite 101⟩, ⟨1, "B", finite 50⟩,
       ⟨2, "B", finite 51⟩] := rfl
  have hclean0 : read_and_clean [⟨1, "A", finite 100⟩, ⟨2, "A", finite 101⟩,
      ⟨1, "B", finite 50⟩, ⟨2, "B", finite 51⟩] =
      [⟨2, "A", finite 101, finite (1 / 100)⟩, ⟨2, "B", finite 51, finite (1 / 50)⟩] := by
    simp only [read_and_clean]
    rw [hsort]
    norm_num [pctChange, pctRet, pyDiv, pySub, pyAdd, pyNeg, PyF.isNan, List.filter,
      (by decide : ¬ ("A" : String) = "B")]
  have hsxx : sxx [(1 : ℝ) / 100] = 0 := by
    norm_num [sxx, meanR, List.map_cons, List.sum_cons]
  have hols : olsSlope [(1 : ℝ) / 100] [(1 : ℝ) / 50] = 0 := by
    rw [olsSlope, if_pos hsxx]
  have hres : residuals [(1 : ℝ) / 100] [(1 : ℝ) / 50] = [0] := by
    simp only [residuals, List.zip, List.zipWith, List.map_cons, List.map_nil]
    norm_num [meanR, List.sum_cons]
  have hrv : residVar [(1 : ℝ) / 100] [(1 : ℝ) / 50] = nan := by
    rw [residVar, hres]
    simp only [List.map_cons, List.map_nil]
    exact pyVarB_singleton 0
  have hfr0 : factor_regression [⟨2, "A", finite 101, finite (1 / 100)⟩,
      ⟨2, "B", finite 51, finite (1 / 50)⟩] "SPY" =
      Except.ok ([("B", finite 0)], [("B", PyF.nan)]) := by
    simp only [factor_regression]
    rw [if_neg (show ¬ (hasDupKey [⟨2, "A", finite 101, finite (1 / 100)⟩,
      ⟨2, "B", finite 51, finite (1 / 50)⟩] = true) by decide)]
    rw [show sortedSymbols [⟨2, "A", finite 101, finite (1 / 100)⟩,
      ⟨2, "B", finite 51, finite (1 / 50)⟩] = ["A", "B"] from rfl]
    rw [if_neg (show ¬ (("SPY" : String) ∈ ["A", "B"]) by decide)]
    rw [show (["A", "B"] : List String).headD "SPY" = "A" from rfl]
    rw [if_neg (by
      push_neg
      exact ⟨by decide, by norm_num⟩)]
    rw [show alignedDates [⟨2, "A", finite 101, finite (1 / 100)⟩,
      ⟨2, "B", finite 51, finite (1 / 50)⟩] = [2] from rfl]
    rw [if_neg (show ¬ (([2] : List ℕ).length = 0) by norm_num)]
    rw [show (([2] : List ℕ).all fun d => (["A", "B"].all fun s =>
      (cell [⟨2, "A", finite 101, finite (1 / 100)⟩,
        ⟨2, "B", finite 51, finite (1 / 50)⟩] s d).isFinite)) = true from rfl]
    simp only [Bool.not_true, Bool.false_eq_true, if_false]
    rw [show (["A", "B"].filter fun s => !(s == "A")) = ["B"] from rfl]
    simp only [List.map_cons, List.map_nil]
    rw [show pyToReal (cell [⟨2, "A", finite 101, finite (1 / 100)⟩,
      ⟨2, "B", finite 51, finite (1 / 50)⟩] "A" 2) = (1 : ℝ) / 100 from rfl]
    rw [show pyToReal (cell [⟨2, "A", finite 101, finite (1 / 100)⟩,
      ⟨2, "B", finite 51, finite (1 / 50)⟩] "B" 2) = (1 : ℝ) / 50 from rfl]
    rw [hols, hrv]
  have hsum : (run_factor_model (fun _ => 0) (Except.ok [⟨1, "A", finite 100⟩,
      ⟨2, "A", finite 101⟩, ⟨1, "B", finite 50⟩, ⟨2, "B", finite 51⟩])).summary =
      [("B", finite 0, finite 0, finite 0, PyF.nan)] := by
    simp only [run_factor_model, hclean0, hfr0]
    show buildSummary [("B", finite 0)]
      (compute_risk (99 / 100) (fun _ => 0) [⟨2, "A", finite 101, finite (1 / 100)⟩,
        ⟨2, "B", finite 51, finite (1 / 50)⟩]) [("B", PyF.nan)] = _
    rw [show compute_risk (99 / 100) (fun _ => 0) [⟨2, "A", finite 101, finite (1 / 100)⟩,
        ⟨2, "B", finite 51, finite (1 / 50)⟩] =
      [("A", var_es (99 / 100) 0 [finite (1 / 100)]),
       ("B", var_es (99 / 100) 0 [finite (1 / 50)])] from rfl]
    rw [var_es_singleton, var_es_singleton]
    rw [show max (0 : ℝ) (-(1 / 50)) = 0 from max_eq_left (by norm_num)]
    rfl
  refine ⟨hsum, rfl, ?_⟩
  rintro ⟨h1, h2, h3⟩
  have hmem : ("B", finite 0, finite 0, finite 0, PyF.nan) ∈
      (run_factor_model (fun _ => 0) (Except.ok [⟨1, "A", finite 100⟩,
        ⟨2, "A", finite 101⟩, ⟨1, "B", finite 50⟩, ⟨2, "B", finite 51⟩])).summary := by
    rw [hsum]
    simp
  have := (h1 _ hmem).2.2.2
  simp [PyF.isFinite] at this

/-- Witness for C6 on a two-symbol, three-date source with two aligned
dates. -/
theorem c6_witness :
    (alignedDates (read_and_clean [⟨1, "A", finite 100⟩, ⟨2, "A", finite 110⟩,
      ⟨3, "A", finite 132⟩, ⟨1, "B", finite 50⟩, ⟨2, "B", finite 55⟩,
      ⟨3, "B", finite 66⟩])).length ≠ 1 ∧
    resultValuesFinite (run_factor_model (fun _ => 0) (Except.ok
      [⟨1, "A", finite 100⟩, ⟨2, "A", finite 110⟩, ⟨3, "A", finite 132⟩,
       ⟨1, "B", finite 50⟩, ⟨2, "B", finite 55⟩, ⟨3, "B", finite 66⟩])) := by
  have hne : (alignedDates (read_and_clean [⟨1, "A", finite 100⟩, ⟨2, "A", finite 110⟩,
      ⟨3, "A", finite 132⟩, ⟨1, "B", finite 50⟩, ⟨2, "B", finite 55⟩,
      ⟨3, "B", finite 66⟩])).length ≠ 1 := by
    rw [c2_clean_eval]
    rw [show alignedDates [⟨2, "A", finite 110, finite (1 / 10)⟩,
      ⟨3, "A", finite 132, finite (1 / 5)⟩, ⟨2, "B", finite 55, finite (1 / 10)⟩,
      ⟨3, "B", finite 66, finite (1 / 5)⟩] = [2, 3] from rfl]
    norm_num
  exact ⟨hne, c6_amended _ _ hne⟩
